import Mathlib

/-!
Verification development for `rs_py/rs_view_sync_raw_data.py`.

The file shallowly embeds the two parts of the script that the design
document talks about:

* the stream index (`get_calib`, `get_filepaths`,
  `get_filepaths_with_timestamps`, lines 13-72), which scans a directory
  tree and produces, per device, timestamp-keyed sequences of frame files;
* the synchronization loop of the `__main__` block (lines 75-163), which
  maintains a watermark `ts_max`, per-device per-stream counters, and at
  every iteration picks, for every device and for both stream kinds, the
  first timestamp at or after the watermark.

Python `str` values are embedded as Lean `String`; string comparison and
integer parsing are done on the underlying `List Char` so that every
definition evaluates inside the kernel.  Fallible Python operations
(IndexError, KeyError, ValueError, FileNotFoundError, StopIteration,
`max` of an empty list) are embedded with `Option`/`Except`.
-/

namespace RsView

/-- Python `max` over a list of naturals: `none` models the `ValueError`
raised by `max([])`, otherwise the maximum of the (nonempty) list. -/
def pyMax : List Nat → Option Nat
  | [] => none
  | x :: xs => some (xs.foldl max x)

/-- Embeds `next(x for x in enumerate(lst) if x[1] >= w)` from lines
96-100 / 102-106: the first element of `lst` that is `≥ w`, together with
its index; `none` models the `StopIteration` raised when no element
qualifies. -/
def findGe (w : Nat) : List Nat → Option (Nat × Nat)
  | [] => none
  | x :: xs =>
    if w ≤ x then some (0, x)
    else (findGe w xs).map (fun p => (p.1 + 1, p.2))

/-- One pass of the per-device selection loop (lines 95-107) over one
stream kind: for every device `i`, scan `seqs[i]` from position `cnts[i]`
for the first timestamp `≥ w`.  `none` models the `StopIteration` that
aborts the whole loop as soon as one device has no candidate. -/
def chooseAll (w : Nat) : List (List Nat) → List Nat → Option (List Nat)
  | [], [] => some []
  | seq :: seqs, c :: cs =>
    match findGe w (seq.drop c), chooseAll w seqs cs with
    | some p, some ts => some (p.2 :: ts)
    | _, _ => none
  | _, _ => none

/-- The mutable state of the `__main__` synchronization loop:
`dev_color_ts` / `dev_depth_ts` (per-device timestamp key lists),
`counter_color` / `counter_depth` (lines 87-88) and `ts_max`. -/
structure SyncState where
  colorTs : List (List Nat)
  depthTs : List (List Nat)
  counterColor : List Nat
  counterDepth : List Nat
  tsMax : Nat
deriving Repr, DecidableEq

/-- One iteration of the `while True:` loop, lines 91-108.  The code scans
color and depth interleaved per device and raises `StopIteration` at the
first device/stream with no candidate; since all selections happen before
any state is written, that is equivalent to selecting all color then all
depth timestamps and failing if any selection fails.  On success the new
`ts_max` is `max(tmp_color_ts_list + tmp_depth_ts_list)` (line 108).
Note that, exactly as in the source, `counter_color` and `counter_depth`
are NOT modified: line 96 binds `ts_idx` but the counters are never
advanced. -/
def step (s : SyncState) : Option (SyncState × List Nat × List Nat) :=
  match chooseAll s.tsMax s.colorTs s.counterColor,
        chooseAll s.tsMax s.depthTs s.counterDepth with
  | some cs, some ds =>
    match pyMax (cs ++ ds) with
    | some m => some ({ s with tsMax := m }, cs, ds)
    | none => none
  | _, _ => none

/-- `n` iterations of the loop; `none` as soon as one iteration raises. -/
def runN : Nat → SyncState → Option SyncState
  | 0, s => some s
  | n + 1, s =>
    match step s with
    | some (s', _, _) => runN n s'
    | none => none

/-- Initial watermark, lines 83-85: the maximum over devices of the first
color key and the first depth key.  `none` models the `IndexError` of
`list(i.keys())[0]` on an empty dict or the `ValueError` of `max([])`. -/
def initTsMax (colorTs depthTs : List (List Nat)) : Option Nat := do
  let hc ← colorTs.mapM List.head?
  let hd ← depthTs.mapM List.head?
  let mc ← pyMax hc
  let md ← pyMax hd
  pure (max mc md)

/-- Session-start state, lines 77-88: the timestamp key lists, all
counters `0`, and the initial watermark. -/
def initState (colorTs depthTs : List (List Nat)) : Option SyncState :=
  (initTsMax colorTs depthTs).map (fun w =>
    { colorTs := colorTs, depthTs := depthTs,
      counterColor := List.replicate colorTs.length 0,
      counterDepth := List.replicate depthTs.length 0,
      tsMax := w })

/-- `isMinGe w l t`: `t` is the minimum element of `l` that is `≥ w`. -/
def isMinGe (w : Nat) (l : List Nat) (t : Nat) : Prop :=
  t ∈ l ∧ w ≤ t ∧ ∀ x ∈ l, w ≤ x → t ≤ x

instance (w : Nat) (l : List Nat) (t : Nat) : Decidable (isMinGe w l t) := by
  unfold isMinGe; infer_instance

/-- The stalling input for the termination claim: one device whose color
and depth sequences are both `[100]`; the initial watermark (lines 83-85)
is `100`. -/
def stallState : SyncState :=
  { colorTs := [[100]], depthTs := [[100]],
    counterColor := [0], counterDepth := [0], tsMax := 100 }

/-! ### Exit-path model for the `__main__` block (lines 158-163) -/

/-- Outcome of executing a Python suite: it finishes normally, raises an
exception (the `Bool` records whether the exception class derives from
`Exception` — `StopIteration`, `ValueError`, ... do; `SystemExit` and
`KeyboardInterrupt` do not), or the process is asked to exit with a given
status (`exit(n)` raises `SystemExit(n)`, which if unhandled terminates
the process with status `n`). -/
inductive PyOutcome where
  | normal : PyOutcome
  | raised : Bool → PyOutcome
  | exited : Nat → PyOutcome
deriving Repr, DecidableEq

/-- Semantics of `except Exception as e: <handler>`: the handler suite's
outcome replaces the body's outcome exactly when the body raised an
exception that is an instance of `Exception`; every other outcome
propagates unchanged. -/
def pyExceptClause (o handler : PyOutcome) : PyOutcome :=
  match o with
  | PyOutcome.raised true => handler
  | o => o

/-- Semantics of `finally: <suite>`: if the finally suite itself raises
or exits, its outcome replaces whatever outcome was in flight; if it
finishes normally, the in-flight outcome stands. -/
def pyFinallyClause (o fin : PyOutcome) : PyOutcome :=
  match fin with
  | PyOutcome.normal => o
  | f => f

/-- Lines 158-163 of the source: the `try` body's outcome is filtered
through `except Exception as e: print(e); exit(1)` — whose suite ends in
`exit(1)`, i.e. outcome `exited 1` — and then through `finally: exit(0)`,
whose suite has outcome `exited 0`. -/
def mainExit (body : PyOutcome) : PyOutcome :=
  pyFinallyClause (pyExceptClause body (PyOutcome.exited 1)) (PyOutcome.exited 0)

/-! ### Strings, Python `sorted`, timestamp parsing -/

/-- Lexicographic comparison of character lists by code point: the order
Python's `sorted` uses on the ASCII filenames of the storage layout. -/
def charListLe : List Char → List Char → Bool
  | [], _ => true
  | _ :: _, [] => false
  | a :: as, b :: bs =>
    if a.toNat < b.toNat then true
    else if b.toNat < a.toNat then false
    else charListLe as bs

/-- Python string `<=`. -/
def strLe (a b : String) : Bool := charListLe a.data b.data

/-- `strLe` as a relation, for sorting. -/
def StrLe (a b : String) : Prop := strLe a b = true

instance : DecidableRel StrLe :=
  fun a b => inferInstanceAs (Decidable (strLe a b = true))

instance : IsTotal String StrLe :=
  ⟨fun s t => by
    show charListLe s.data t.data = true ∨ charListLe t.data s.data = true
    generalize s.data = as
    generalize t.data = bs
    induction as generalizing bs with
    | nil => left; rfl
    | cons a as ih =>
      cases bs with
      | nil => right; rfl
      | cons b bs =>
        simp only [charListLe]
        by_cases h1 : a.toNat < b.toNat
        · left; simp [h1]
        · by_cases h2 : b.toNat < a.toNat
          · right; simp [h2]
          · simpa [h1, h2] using ih bs⟩

instance : IsTrans String StrLe :=
  ⟨fun s t u => by
    show charListLe s.data t.data = true → charListLe t.data u.data = true →
      charListLe s.data u.data = true
    generalize s.data = as
    generalize t.data = bs
    generalize u.data = cs
    intro h1 h2
    induction as generalizing bs cs with
    | nil => rfl
    | cons a as ih =>
      cases bs with
      | nil => simp [charListLe] at h1
      | cons b bs =>
        cases cs with
        | nil => simp [charListLe] at h2
        | cons c cs =>
          simp only [charListLe] at h1 h2 ⊢
          by_cases hab : a.toNat < b.toNat
          · by_cases hbc : b.toNat < c.toNat
            · simp [lt_trans hab hbc]
            · by_cases hcb : c.toNat < b.toNat
              · simp [hbc, hcb] at h2
              · have : a.toNat < c.toNat := by omega
                simp [this]
          · by_cases hba : b.toNat < a.toNat
            · simp [hab, hba] at h1
            · by_cases hbc : b.toNat < c.toNat
              · have : a.toNat < c.toNat := by omega
                simp [this]
              · by_cases hcb : c.toNat < b.toNat
                · simp [hbc, hcb] at h2
                · have hac1 : ¬ a.toNat < c.toNat := by omega
                  have hac2 : ¬ c.toNat < a.toNat := by omega
                  simp [hab, hba] at h1
                  simp [hbc, hcb] at h2
                  simp [hac1, hac2]
                  exact ih bs cs h1 h2⟩

/-- Python `sorted` on a list of strings.  `sorted` is a stable sort, and
`StrLe` is antisymmetric (equal-comparing strings are equal), so any
sorting algorithm produces this same list; insertion sort keeps every
proof elementary. -/
def pySorted (l : List String) : List String := l.insertionSort StrLe

/-- `sorted(os.listdir(dir))` followed by per-name indexing, over a
directory embedded as (name, contents) pairs: sort the pairs by name.
Directory entry names are distinct on a file system, so this agrees with
sorting the name list alone. -/
def sortKV {α : Type} (l : List (String × α)) : List (String × α) :=
  l.insertionSort (fun p q => StrLe p.1 q.1)

/-- `name.split('.')[0]` (lines 63-64, 66-67): the characters before the
first dot (the whole name if it has no dot). -/
def baseNameChars (s : String) : List Char :=
  s.data.takeWhile (fun c => c ≠ '.')

/-- Python `int(...)` on the strings that arise as payload base names:
the decimal value of a nonempty all-digit string, `none` (`ValueError`)
otherwise.  (Python's `int` also accepts sign, whitespace and underscore
forms; payload base names that parse are plain digit strings, so the
accepted sets agree on every name this program feeds it.) -/
def pyInt (l : List Char) : Option Nat :=
  if l ≠ [] ∧ l.all Char.isDigit then
    some (l.foldl (fun n c => 10 * n + (c.toNat - 48)) 0)
  else none

/-- `int(fname.split('.')[0])`, the timestamp encoded in a filename. -/
def parseTs (fname : String) : Option Nat := pyInt (baseNameChars fname)

/-! ### The storage layout and the stream index -/

/-- One recording-session directory `base/<device>/<ts>/`: the listings
of its `calib`, `color` and `depth` subdirectories.  `none` embeds a
missing subdirectory, on which `os.listdir` raises
`FileNotFoundError`. -/
structure SessionDir where
  calibFiles : Option (List String)
  colorFiles : Option (List String)
  depthFiles : Option (List String)
deriving Repr, DecidableEq

/-- A device directory: its recording-session subdirectories as the
(session dirname, contents) pairs `os.listdir` would reveal. -/
structure DeviceDir where
  sessions : List (String × SessionDir)
deriving Repr, DecidableEq

/-- The base directory: (device dirname, device directory) pairs. -/
abbrev BaseDir := List (String × DeviceDir)

instance {ε α : Type} [DecidableEq ε] [DecidableEq α] :
    DecidableEq (Except ε α) := fun x y =>
  match x, y with
  | Except.ok a, Except.ok b =>
    decidable_of_iff (a = b) ⟨congrArg Except.ok, Except.ok.inj⟩
  | Except.error a, Except.error b =>
    decidable_of_iff (a = b) ⟨congrArg Except.error, Except.error.inj⟩
  | Except.ok _, Except.error _ => isFalse fun h => Except.noConfusion h
  | Except.error _, Except.ok _ => isFalse fun h => Except.noConfusion h

/-- The Python exceptions these functions can raise. -/
inductive PyError where
  | fileNotFound : PyError
  | valueError : PyError
  | indexError : PyError
  | keyError : PyError
deriving Repr, DecidableEq

/-- Python dict assignment `d[k] = v`: overwrite in place when the key is
present (keeping its position), append otherwise. -/
def dictSet {κ α : Type} [DecidableEq κ] : List (κ × α) → κ → α → List (κ × α)
  | [], k, v => [(k, v)]
  | (k', v') :: rest, k, v =>
    if k = k' then (k', v) :: rest else (k', v') :: dictSet rest k v

/-- The two inner loops of `get_calib` (lines 17-20) for one device:
`path[device] = os.path.join(..., filename)` folded over every calib file
of every session, sessions in sorted order and filenames in sorted order;
`FileNotFoundError` when a `calib` directory is missing.  (The embedding
records the chosen filename; the dropped path components
`base/device/ts/calib/` are determined by where the name was listed.) -/
def calibScan (device : String) :
    List (String × SessionDir) → List (String × String) →
    Except PyError (List (String × String))
  | [], acc => Except.ok acc
  | (_, sd) :: rest, acc =>
    match sd.calibFiles with
    | none => Except.error PyError.fileNotFound
    | some files =>
      calibScan device rest
        ((pySorted files).foldl (fun a f => dictSet a device f) acc)

/-- The device loop of `get_calib` (lines 15-20). -/
def get_calibGo : List (String × DeviceDir) → List (String × String) →
    Except PyError (List (String × String))
  | [], acc => Except.ok acc
  | (dev, dd) :: rest, acc =>
    match calibScan dev (sortKV dd.sessions) acc with
    | Except.error e => Except.error e
    | Except.ok acc2 => get_calibGo rest acc2

/-- `get_calib` (lines 13-21): one calib-file path per device, each
device's dict entry overwritten once per file found. -/
def get_calib (base : BaseDir) : Except PyError (List (String × String)) :=
  get_calibGo (sortKV base) []

/-- The two inner loops of `get_filepaths` (lines 29-32) for one device:
the concatenation, over sessions in sorted order, of the sorted filename
listings of the selected sensor subdirectory.  (`out[device].append(...)`
appends the full path; `split('/')[-1]` later recovers exactly the
filename, which is all the rest of the program inspects, so the embedding
carries the filename.) -/
def sensorScan (sel : SessionDir → Option (List String)) :
    List (String × SessionDir) → Except PyError (List String)
  | [] => Except.ok []
  | (_, sd) :: rest =>
    match sel sd with
    | none => Except.error PyError.fileNotFound
    | some files =>
      match sensorScan sel rest with
      | Except.error e => Except.error e
      | Except.ok out => Except.ok (pySorted files ++ out)

/-- The device loop of `get_filepaths` (lines 26-32); `out[device] = []`
is assigned before the session loop, so a device with no sessions still
gets an (empty) entry. -/
def get_filepathsGo (sel : SessionDir → Option (List String)) :
    List (String × DeviceDir) → Except PyError (List (String × List String))
  | [] => Except.ok []
  | (dev, dd) :: rest =>
    match sensorScan sel (sortKV dd.sessions) with
    | Except.error e => Except.error e
    | Except.ok fs =>
      match get_filepathsGo sel rest with
      | Except.error e => Except.error e
      | Except.ok out => Except.ok ((dev, fs) :: out)

/-- `get_filepaths` (lines 24-33). -/
def get_filepaths (base : BaseDir) (sel : SessionDir → Option (List String)) :
    Except PyError (List (String × List String)) :=
  get_filepathsGo sel (sortKV base)

/-! ### `get_filepaths_with_timestamps` (lines 36-72) -/

/-- The result quadruple of `get_filepaths_with_timestamps`: per-device
insertion-ordered dicts from parsed timestamp to
`[calib_file, frame_file]`, plus `num_data` and `num_dev`. -/
structure BuildResult where
  colorDict : List (String × List (Nat × (String × String)))
  depthDict : List (String × List (Nat × (String × String)))
  numData : Nat
  numDev : Nat
deriving Repr, DecidableEq

/-- Python tuple indexing `data_tuple[n]`: `IndexError` out of range. -/
def tupleGet (row : List String) (n : Nat) : Except PyError String :=
  match row.get? n with
  | some s => Except.ok s
  | none => Except.error PyError.indexError

/-- `color_dict[dev][ts] = v` (lines 69-70): `KeyError` when `dev` is
absent, otherwise Python dict assignment on the inner dict. -/
def dictSetIn (d : List (String × List (Nat × (String × String))))
    (dev : String) (ts : Nat) (v : String × String) :
    Except PyError (List (String × List (Nat × (String × String)))) :=
  match d with
  | [] => Except.error PyError.keyError
  | (k, inner) :: rest =>
    if dev = k then Except.ok ((k, dictSet inner ts v) :: rest)
    else
      match dictSetIn rest dev ts v with
      | Except.error e => Except.error e
      | Except.ok rest2 => Except.ok ((k, inner) :: rest2)

/-- The number of rows `zip(*lists)` yields: the minimum of the lengths
(zero when there is no list at all). -/
def zipLen : List (List String) → Nat
  | [] => 0
  | l :: rest => (rest.map List.length).foldl min l.length

/-- `zip(*lists)` (lines 51-56): row `j` holds the `j`-th element of
every list, for `j` below every list's length (so `getD`'s default is
never read). -/
def zipRows (ls : List (List String)) : List (List String) :=
  (List.range (zipLen ls)).map (fun j => ls.map (fun l => l.getD j ""))

/-- The body of the `for i in range(num_dev)` loop (lines 57-70) for one
row, iterated over the index list: fetch the device, calib file, color
file and depth file at the offsets `0/1/2/3 * num_dev + i`, parse both
timestamps (`ValueError` on a non-integer base name), and write the two
dict entries. -/
def rowLoop (numDev : Nat) (row : List String) :
    List Nat →
    (List (String × List (Nat × (String × String))) ×
     List (String × List (Nat × (String × String)))) →
    Except PyError
      (List (String × List (Nat × (String × String))) ×
       List (String × List (Nat × (String × String))))
  | [], d => Except.ok d
  | i :: is, (cd, dd) => do
    let dev ← tupleGet row (0 * numDev + i)
    let calib_file ← tupleGet row (1 * numDev + i)
    let color_file ← tupleGet row (2 * numDev + i)
    let depth_file ← tupleGet row (3 * numDev + i)
    let colorTs ← match parseTs color_file with
      | some n => Except.ok n
      | none => Except.error PyError.valueError
    let depthTs ← match parseTs depth_file with
      | some n => Except.ok n
      | none => Except.error PyError.valueError
    let cd2 ← dictSetIn cd dev colorTs (calib_file, color_file)
    let dd2 ← dictSetIn dd dev depthTs (calib_file, depth_file)
    rowLoop numDev row is (cd2, dd2)

/-- The `for data_tuple in zip(...)` loop (lines 51-70) over all rows. -/
def rowsLoop (numDev : Nat) :
    List (List String) →
    (List (String × List (Nat × (String × String))) ×
     List (String × List (Nat × (String × String)))) →
    Except PyError
      (List (String × List (Nat × (String × String))) ×
       List (String × List (Nat × (String × String))))
  | [], d => Except.ok d
  | row :: rest, d =>
    match rowLoop numDev row (List.range numDev) d with
    | Except.error e => Except.error e
    | Except.ok d2 => rowsLoop numDev rest d2

/-- Lines 41-72 of `get_filepaths_with_timestamps`, given the three
directory-scan results: `num_data` is the length of the FIRST device's
color list (`IndexError` when there are no devices); the replicated
device and calib lists, the color lists and the depth lists are zipped —
`zip` silently truncating to the shortest — and every row writes one
(timestamp, [calib, file]) entry per device into each dict, which start
as `{dev: {} for dev in dev_calib_file}`. -/
def buildDicts (devColor devDepth : List (String × List String))
    (devCalib : List (String × String)) : Except PyError BuildResult := do
  let firstColor ← match devColor.head? with
    | some p => Except.ok p.2
    | none => Except.error PyError.indexError
  let numData := firstColor.length
  let numDev := devCalib.length
  let lists := (devCalib.map Prod.fst).map (fun d => List.replicate numData d) ++
    ((devCalib.map Prod.snd).map (fun c => List.replicate numData c) ++
      (devColor.map Prod.snd ++ devDepth.map Prod.snd))
  let cd0 := devCalib.map
    (fun p => (p.1, ([] : List (Nat × (String × String)))))
  let dd0 := devCalib.map
    (fun p => (p.1, ([] : List (Nat × (String × String)))))
  let d2 ← rowsLoop numDev (zipRows lists) (cd0, dd0)
  Except.ok { colorDict := d2.1, depthDict := d2.2,
              numData := numData, numDev := numDev }

/-- `get_filepaths_with_timestamps` (lines 36-72): scan color files,
depth files and calib files, then build the timestamp-keyed dicts. -/
def get_filepaths_with_timestamps (base : BaseDir) :
    Except PyError BuildResult := do
  let devColor ← get_filepaths base SessionDir.colorFiles
  let devDepth ← get_filepaths base SessionDir.depthFiles
  let devCalib ← get_calib base
  buildDicts devColor devDepth devCalib

/-! ### Specification-side descriptions used by the amended claims -/

/-- The per-device file sequence the sensor scan produces when every
sensor directory is present: sessions in sorted-name order, each
contributing its lexicographically sorted listing. -/
def sensorSpec (sel : SessionDir → Option (List String)) (dd : DeviceDir) :
    List String :=
  ((sortKV dd.sessions).map (fun q => pySorted ((sel q.2).getD []))).flatten

/-- The full `get_filepaths` result under the same conditions. -/
def indexSpec (sel : SessionDir → Option (List String)) (base : BaseDir) :
    List (String × List String) :=
  (sortKV base).map (fun p => (p.1, sensorSpec sel p.2))

/-- Append a (key, value) entry when the optional value is present. -/
def appendIfSome {κ α : Type} (acc : List (κ × α)) (k : κ) :
    Option α → List (κ × α)
  | none => acc
  | some f => acc ++ [(k, f)]

/-- The amended-C8 selection policy for one device: the LAST calib file
in sorted session order then sorted filename order (none when the device
has no calib file at all). -/
def calibSpecOfDevice (dd : DeviceDir) : Option String :=
  (((sortKV dd.sessions).map
    (fun q => pySorted (q.2.calibFiles.getD []))).flatten).getLast?

/-- The amended-C8 description of the full `get_calib` result. -/
def calibSpec (base : BaseDir) : List (String × String) :=
  (sortKV base).filterMap
    (fun p => (calibSpecOfDevice p.2).map (fun f => (p.1, f)))

/-- The truncation length the implicit-claim C9 describes: the minimum
of the first device's color-list length (`num_data`) and of every
device's color-list and depth-list lengths. -/
def truncLen (devColor devDepth : List (String × List String)) : Nat :=
  (devColor.map (fun p => p.2.length) ++
    devDepth.map (fun p => p.2.length)).foldr min
    ((devColor.head?.map (fun p => p.2.length)).getD 0)

/-- One dict entry as lines 69-70 write it: parsed timestamp mapped to
`[calib_file, frame_file]`. -/
def bundleEntry (cal : String) (f : String) : Nat × (String × String) :=
  ((parseTs f).getD 0, (cal, f))

/-- The dict entry of one device after its first `j` files have been
written: the pair carries ((device, calib file), (device, file list)). -/
def dictRow (j : Nat) (pc : (String × String) × (String × List String)) :
    String × List (Nat × (String × String)) :=
  (pc.1.1, (pc.2.2.take j).map (fun f => bundleEntry pc.1.2 f))

/-- The whole per-device dict after `j` rows of the zip loop. -/
def truncFull (devCalib : List (String × String))
    (devFiles : List (String × List String)) (j : Nat) :
    List (String × List (Nat × (String × String))) :=
  (devCalib.zip devFiles).map (dictRow j)

/-- The mixed state in the middle of one row: devices before `m` already
hold `j + 1` entries, devices from `m` on still hold `j`. -/
def truncState (devCalib : List (String × String))
    (devFiles : List (String × List String)) (j m : Nat) :
    List (String × List (Nat × (String × String))) :=
  ((devCalib.zip devFiles).take m).map (dictRow (j + 1)) ++
    ((devCalib.zip devFiles).drop m).map (dictRow j)

/-! ### Concrete storage layouts used by counterexamples and witnesses -/

/-- One device, one session, two calib files: `get_calib` keeps the last
assignment, `b.json`, not the first file found. -/
def base8ex : BaseDir :=
  [("d0", { sessions := [("s0",
    { calibFiles := some ["a.json", "b.json"],
      colorFiles := some [], depthFiles := some [] })] })]

/-- One device, one session, two frames per stream whose filenames sort
lexicographically against numeric timestamp order
(`sorted(["9.bin", "10.bin"]) = ["10.bin", "9.bin"]`). -/
def base5ex : BaseDir :=
  [("d0", { sessions := [("s0",
    { calibFiles := some ["c.json"],
      colorFiles := some ["9.bin", "10.bin"],
      depthFiles := some ["9.bin", "10.bin"] })] })]

/-- One device whose color and depth streams are empty while every
directory is present: `build` succeeds with an empty index. -/
def base7ex : BaseDir :=
  [("d0", { sessions := [("s0",
    { calibFiles := some ["c.json"],
      colorFiles := some [], depthFiles := some [] })] })]

/-- One device whose only session is missing its `color` directory. -/
def base7mx : BaseDir :=
  [("d0", { sessions := [("s0",
    { calibFiles := some ["c.json"],
      colorFiles := none, depthFiles := some [] })] })]

/-! ### Supporting lemmas about the selection loop -/

theorem mem_sortKV {α : Type} {x : String × α} {l : List (String × α)} :
    x ∈ sortKV l ↔ x ∈ l :=
  (List.perm_insertionSort _ l).mem_iff


theorem foldl_max_mem (xs : List Nat) (x : Nat) : xs.foldl max x ∈ x :: xs := by
  induction xs generalizing x with
  | nil => simp
  | cons y ys ih =>
    simp only [List.foldl_cons]
    rcases List.mem_cons.mp (ih (max x y)) with h | h
    · rcases max_choice x y with hm | hm
      · exact List.mem_cons.mpr (Or.inl (by rw [h, hm]))
      · exact List.mem_cons_of_mem _ (List.mem_cons.mpr (Or.inl (by rw [h, hm])))
    · exact List.mem_cons_of_mem _ (List.mem_cons_of_mem _ h)

theorem le_foldl_max (xs : List Nat) (x : Nat) :
    ∀ t ∈ x :: xs, t ≤ xs.foldl max x := by
  induction xs generalizing x with
  | nil =>
    intro t ht
    simp only [List.mem_singleton] at ht
    simp [ht]
  | cons y ys ih =>
    intro t ht
    simp only [List.foldl_cons]
    have hhead : max x y ≤ ys.foldl max (max x y) :=
      ih (max x y) (max x y) (List.mem_cons_self _ _)
    simp only [List.mem_cons] at ht
    rcases ht with h | h | h
    · subst h; exact le_trans (le_max_left t y) hhead
    · subst h; exact le_trans (le_max_right x t) hhead
    · exact ih (max x y) t (List.mem_cons_of_mem _ h)

theorem pyMax_spec {l : List Nat} {m : Nat} (h : pyMax l = some m) :
    m ∈ l ∧ ∀ t ∈ l, t ≤ m := by
  cases l with
  | nil => simp [pyMax] at h
  | cons x xs =>
    simp only [pyMax, Option.some.injEq] at h
    subst h
    exact ⟨foldl_max_mem xs x, le_foldl_max xs x⟩

theorem findGe_some {w : Nat} {l : List Nat} {i t : Nat}
    (h : findGe w l = some (i, t)) : w ≤ t ∧ t ∈ l := by
  induction l generalizing i with
  | nil => simp [findGe] at h
  | cons x xs ih =>
    simp only [findGe] at h
    by_cases hw : w ≤ x
    · rw [if_pos hw] at h
      obtain ⟨hi, ht⟩ := Prod.mk.injEq .. ▸ Option.some.inj h
      subst ht
      exact ⟨hw, List.mem_cons_self _ _⟩
    · rw [if_neg hw, Option.map_eq_some'] at h
      obtain ⟨⟨j, u⟩, hj, he⟩ := h
      obtain ⟨hi, ht⟩ := Prod.mk.injEq .. ▸ he
      subst ht
      obtain ⟨h1, h2⟩ := ih hj
      exact ⟨h1, List.mem_cons_of_mem _ h2⟩

theorem findGe_min {w : Nat} {l : List Nat} {i t : Nat}
    (hs : List.Sorted (· ≤ ·) l) (h : findGe w l = some (i, t)) :
    isMinGe w l t := by
  induction l generalizing i with
  | nil => simp [findGe] at h
  | cons x xs ih =>
    rw [List.sorted_cons] at hs
    obtain ⟨hx, hxs⟩ := hs
    simp only [findGe] at h
    by_cases hw : w ≤ x
    · rw [if_pos hw] at h
      obtain ⟨hi, ht⟩ := Prod.mk.injEq .. ▸ Option.some.inj h
      subst ht
      refine ⟨List.mem_cons_self _ _, hw, ?_⟩
      intro z hz hwz
      rcases List.mem_cons.mp hz with rfl | hz'
      · exact le_refl _
      · exact hx z hz'
    · rw [if_neg hw, Option.map_eq_some'] at h
      obtain ⟨⟨j, u⟩, hj, he⟩ := h
      obtain ⟨hi, ht⟩ := Prod.mk.injEq .. ▸ he
      subst ht
      obtain ⟨hmem, hge, hmin⟩ := ih hxs hj
      refine ⟨List.mem_cons_of_mem _ hmem, hge, ?_⟩
      intro z hz hwz
      rcases List.mem_cons.mp hz with rfl | hz'
      · exact absurd hwz hw
      · exact hmin z hz' hwz

theorem chooseAll_length {w : Nat} {seqs : List (List Nat)} {cnts ts : List Nat}
    (h : chooseAll w seqs cnts = some ts) : ts.length = seqs.length := by
  induction seqs generalizing cnts ts with
  | nil =>
    cases cnts with
    | nil => simp only [chooseAll, Option.some.injEq] at h; subst h; rfl
    | cons c cs => simp [chooseAll] at h
  | cons seq seqs ih =>
    cases cnts with
    | nil => simp [chooseAll] at h
    | cons c cs =>
      simp only [chooseAll] at h
      cases hf : findGe w (seq.drop c) with
      | none => rw [hf] at h; simp at h
      | some p =>
        cases hc : chooseAll w seqs cs with
        | none => rw [hf, hc] at h; simp at h
        | some us =>
          rw [hf, hc] at h
          simp only [Option.some.injEq] at h
          subst h
          simp [ih hc]

theorem chooseAll_ge {w : Nat} {seqs : List (List Nat)} {cnts ts : List Nat}
    (h : chooseAll w seqs cnts = some ts) : ∀ t ∈ ts, w ≤ t := by
  induction seqs generalizing cnts ts with
  | nil =>
    cases cnts with
    | nil => simp only [chooseAll, Option.some.injEq] at h; subst h; simp
    | cons c cs => simp [chooseAll] at h
  | cons seq seqs ih =>
    cases cnts with
    | nil => simp [chooseAll] at h
    | cons c cs =>
      simp only [chooseAll] at h
      cases hf : findGe w (seq.drop c) with
      | none => rw [hf] at h; simp at h
      | some p =>
        obtain ⟨j, u⟩ := p
        cases hc : chooseAll w seqs cs with
        | none => rw [hf, hc] at h; simp at h
        | some us =>
          rw [hf, hc] at h
          simp only [Option.some.injEq] at h
          subst h
          intro t ht
          rcases List.mem_cons.mp ht with rfl | ht'
          · exact (findGe_some hf).1
          · exact ih hc t ht'

theorem chooseAll_zero_spec {w : Nat} {seqs : List (List Nat)} {ts : List Nat}
    (h : chooseAll w seqs (List.replicate seqs.length 0) = some ts) :
    ∀ i t, ts.get? i = some t → ∃ j, findGe w (seqs.getD i []) = some (j, t) := by
  induction seqs generalizing ts with
  | nil =>
    simp only [List.length_nil, List.replicate_zero, chooseAll,
      Option.some.injEq] at h
    subst h
    intro i t ht
    simp at ht
  | cons seq seqs ih =>
    simp only [List.length_cons, List.replicate_succ, chooseAll,
      List.drop_zero] at h
    cases hf : findGe w seq with
    | none => rw [hf] at h; simp at h
    | some p =>
      obtain ⟨j, u⟩ := p
      cases hc : chooseAll w seqs (List.replicate seqs.length 0) with
      | none => rw [hf, hc] at h; simp at h
      | some us =>
        rw [hf, hc] at h
        simp only [Option.some.injEq] at h
        subst h
        intro i t ht
        cases i with
        | zero =>
          simp only [List.get?] at ht
          obtain rfl := Option.some.inj ht
          exact ⟨j, hf⟩
        | succ i =>
          simp only [List.get?] at ht
          simpa using ih hc i t ht

theorem step_elim {s s' : SyncState} {cs ds : List Nat}
    (h : step s = some (s', cs, ds)) :
    chooseAll s.tsMax s.colorTs s.counterColor = some cs ∧
    chooseAll s.tsMax s.depthTs s.counterDepth = some ds ∧
    pyMax (cs ++ ds) = some s'.tsMax ∧
    s'.colorTs = s.colorTs ∧ s'.depthTs = s.depthTs ∧
    s'.counterColor = s.counterColor ∧ s'.counterDepth = s.counterDepth := by
  unfold step at h
  split at h
  next cs0 ds0 hc hd =>
    split at h
    next m hm =>
      simp only [Option.some.injEq, Prod.mk.injEq] at h
      obtain ⟨hs, hcs, hds⟩ := h
      subst hcs; subst hds; subst hs
      exact ⟨hc, hd, hm, rfl, rfl, rfl, rfl⟩
    next hm => exact absurd h (by simp)
  next hc hd => exact absurd h (by simp)

theorem runN_fields {n : Nat} {s0 s : SyncState} (h : runN n s0 = some s) :
    s.colorTs = s0.colorTs ∧ s.depthTs = s0.depthTs ∧
    s.counterColor = s0.counterColor ∧ s.counterDepth = s0.counterDepth := by
  induction n generalizing s0 with
  | zero =>
    simp only [runN, Option.some.injEq] at h
    subst h
    exact ⟨rfl, rfl, rfl, rfl⟩
  | succ n ih =>
    simp only [runN] at h
    cases hs : step s0 with
    | none => rw [hs] at h; simp at h
    | some r =>
      obtain ⟨s1, cs, ds⟩ := r
      rw [hs] at h
      obtain ⟨-, -, -, h1, h2, h3, h4⟩ := step_elim hs
      obtain ⟨g1, g2, g3, g4⟩ := ih h
      exact ⟨g1.trans h1, g2.trans h2, g3.trans h3, g4.trans h4⟩

theorem initState_elim {c d : List (List Nat)} {s0 : SyncState}
    (h : initState c d = some s0) :
    s0.colorTs = c ∧ s0.depthTs = d ∧
    s0.counterColor = List.replicate c.length 0 ∧
    s0.counterDepth = List.replicate d.length 0 := by
  unfold initState at h
  cases hw : initTsMax c d with
  | none => rw [hw] at h; simp at h
  | some w =>
    rw [hw] at h
    simp only [Option.map_some', Option.some.injEq] at h
    subst h
    exact ⟨rfl, rfl, rfl, rfl⟩

/-! ### Claim theorems about the synchronization loop -/

/-- C1: for every frame bundle emitted by an alignment step of a session
started by `initState` (so the counters are the all-zero lists of lines
87-88), and for every device and stream kind, the chosen timestamp is the
minimum timestamp in that device's sequence that is `≥` the watermark
`s.tsMax` in force when the bundle was produced — provided each sequence
is ascending, as the spec's data model requires. -/
theorem claim1_selection_minimal
    (colorTs depthTs : List (List Nat)) (s0 s s' : SyncState) (n : Nat)
    (cs ds : List Nat)
    (hinit : initState colorTs depthTs = some s0)
    (hsc : ∀ l ∈ colorTs, List.Sorted (· ≤ ·) l)
    (hsd : ∀ l ∈ depthTs, List.Sorted (· ≤ ·) l)
    (hrun : runN n s0 = some s)
    (hstep : step s = some (s', cs, ds)) :
    (∀ i t, cs.get? i = some t → isMinGe s.tsMax (colorTs.getD i []) t) ∧
    (∀ i t, ds.get? i = some t → isMinGe s.tsMax (depthTs.getD i []) t) := by
  obtain ⟨i1, i2, i3, i4⟩ := initState_elim hinit
  obtain ⟨f1, f2, f3, f4⟩ := runN_fields hrun
  obtain ⟨hc, hd, -, -⟩ := step_elim hstep
  rw [f1, i1, f3, i3] at hc
  rw [f2, i2, f4, i4] at hd
  have hlc := chooseAll_length hc
  have hld := chooseAll_length hd
  constructor
  · intro i t ht
    obtain ⟨j, hj⟩ := chooseAll_zero_spec hc i t ht
    have hi : i < colorTs.length := by
      have := (List.get?_eq_some.mp ht).1
      omega
    have hmem : colorTs.getD i [] ∈ colorTs := by
      rw [List.getD_eq_getElem _ _ hi]
      exact List.getElem_mem _
    exact findGe_min (hsc _ hmem) hj
  · intro i t ht
    obtain ⟨j, hj⟩ := chooseAll_zero_spec hd i t ht
    have hi : i < depthTs.length := by
      have := (List.get?_eq_some.mp ht).1
      omega
    have hmem : depthTs.getD i [] ∈ depthTs := by
      rw [List.getD_eq_getElem _ _ hi]
      exact List.getElem_mem _
    exact findGe_min (hsd _ hmem) hj

/-- Witness for C1 at a concrete session: one device, color sequence
`[100, 200]`, depth sequence `[105, 205]`, initial watermark `105`; the
first step selects color `200` and depth `105`, each the minimum
timestamp `≥ 105` in its sequence. -/
theorem claim1_selection_minimal_witness :
    (∀ i t, ([200] : List Nat).get? i = some t →
      isMinGe 105 (([[100, 200]] : List (List Nat)).getD i []) t) ∧
    (∀ i t, ([105] : List Nat).get? i = some t →
      isMinGe 105 (([[105, 205]] : List (List Nat)).getD i []) t) :=
  claim1_selection_minimal [[100, 200]] [[105, 205]]
    { colorTs := [[100, 200]], depthTs := [[105, 205]],
      counterColor := [0], counterDepth := [0], tsMax := 105 }
    { colorTs := [[100, 200]], depthTs := [[105, 205]],
      counterColor := [0], counterDepth := [0], tsMax := 105 }
    { colorTs := [[100, 200]], depthTs := [[105, 205]],
      counterColor := [0], counterDepth := [0], tsMax := 200 }
    0 [200] [105]
    (by decide) (by decide) (by decide) rfl (by decide)

/-- C2 is false of the code: because lines 87-88's counters are never
updated (the `ts_idx` bound at lines 96/102 is discarded), the same color
locator — index 1, timestamp 200, of the single device's sequence
`[100, 200]` — is chosen by two distinct consecutive alignment steps.
The first step (watermark 105) selects it via `findGe 105 [100,200] =
some (1, 200)` and the second step (watermark 200) selects it again via
`findGe 200 [100,200] = some (1, 200)`; both states carry the unchanged
counters `[0]`. -/
theorem claim2_locator_rechosen :
    step { colorTs := [[100, 200]], depthTs := [[105, 205]],
           counterColor := [0], counterDepth := [0], tsMax := 105 } =
      some ({ colorTs := [[100, 200]], depthTs := [[105, 205]],
              counterColor := [0], counterDepth := [0], tsMax := 200 },
            [200], [105]) ∧
    step { colorTs := [[100, 200]], depthTs := [[105, 205]],
           counterColor := [0], counterDepth := [0], tsMax := 200 } =
      some ({ colorTs := [[100, 200]], depthTs := [[105, 205]],
              counterColor := [0], counterDepth := [0], tsMax := 205 },
            [200], [205]) ∧
    findGe 105 [100, 200] = some (1, 200) ∧
    findGe 200 [100, 200] = some (1, 200) := by decide

/-- C3 is false of the code: on the single-device session with color and
depth sequences both `[100]` (initial watermark 100, sum of sequence
lengths 2), every iteration of the `while True:` loop re-selects the same
frame and reproduces the state unchanged, so the loop never terminates —
it neither reaches end-of-stream within 2 steps nor reports the stall. -/
theorem claim3_stall_loops_forever :
    ∀ n : Nat, runN n stallState = some stallState := by
  intro n
  induction n with
  | zero => rfl
  | succ n ih =>
    have h : step stallState = some (stallState, [100], [100]) := by decide
    simp only [runN, h]
    exact ih

/-- C4 (amended): across one successful alignment step the watermark is
non-decreasing, and it increases strictly exactly when at least one
chosen timestamp strictly exceeds the previous watermark. -/
theorem claim4_watermark_monotone (s s' : SyncState) (cs ds : List Nat)
    (hstep : step s = some (s', cs, ds)) :
    s.tsMax ≤ s'.tsMax ∧
    (s.tsMax < s'.tsMax ↔ ∃ t ∈ cs ++ ds, s.tsMax < t) := by
  obtain ⟨hc, hd, hm, -, -⟩ := step_elim hstep
  obtain ⟨hmem, hub⟩ := pyMax_spec hm
  have hge : ∀ t ∈ cs ++ ds, s.tsMax ≤ t := by
    intro t ht
    rcases List.mem_append.mp ht with h | h
    · exact chooseAll_ge hc t h
    · exact chooseAll_ge hd t h
  refine ⟨hge _ hmem, ?_, ?_⟩
  · intro hlt
    exact ⟨s'.tsMax, hmem, hlt⟩
  · rintro ⟨t, ht, hlt⟩
    exact lt_of_lt_of_le hlt (hub t ht)

/-- Witness for C4 (amended) at the concrete first step of the C1
session: watermark goes from 105 to 200, and indeed a chosen timestamp
(200) strictly exceeds 105. -/
theorem claim4_watermark_monotone_witness :
    (105 : Nat) ≤ 200 ∧
    ((105 : Nat) < 200 ↔ ∃ t ∈ ([200] ++ [105] : List Nat), 105 < t) :=
  claim4_watermark_monotone
    { colorTs := [[100, 200]], depthTs := [[105, 205]],
      counterColor := [0], counterDepth := [0], tsMax := 105 }
    { colorTs := [[100, 200]], depthTs := [[105, 205]],
      counterColor := [0], counterDepth := [0], tsMax := 200 }
    [200] [105] (by decide)

/-- Counterexample to C4 as stated: one device with color `[100, 200]`
and depth `[150, 200]`, watermark 150.  The first step selects depth
locator index 0 (`findGe 150 [150,200] = some (0, 150)`) and sets the
watermark to 200; the second step selects depth locator index 1
(`findGe 200 [150,200] = some (1, 200)`) — the depth stream advanced to
a locator never chosen before — yet the watermark stays at 200 instead
of increasing strictly. -/
theorem claim4_advance_without_strict_increase :
    step { colorTs := [[100, 200]], depthTs := [[150, 200]],
           counterColor := [0], counterDepth := [0], tsMax := 150 } =
      some ({ colorTs := [[100, 200]], depthTs := [[150, 200]],
              counterColor := [0], counterDepth := [0], tsMax := 200 },
            [200], [150]) ∧
    step { colorTs := [[100, 200]], depthTs := [[150, 200]],
           counterColor := [0], counterDepth := [0], tsMax := 200 } =
      some ({ colorTs := [[100, 200]], depthTs := [[150, 200]],
              counterColor := [0], counterDepth := [0], tsMax := 200 },
            [200], [200]) ∧
    findGe 150 [150, 200] = some (0, 150) ∧
    findGe 200 [150, 200] = some (1, 200) := by decide

/-- C6: after a successful alignment step the new watermark `s'.tsMax`
(line 108's `ts_max = max(tmp_color_ts_list + tmp_depth_ts_list)`) is the
maximum of all timestamps chosen at that step, over all devices and both
stream kinds: it is one of them and bounds all of them. -/
theorem claim6_watermark_is_max (s s' : SyncState) (cs ds : List Nat)
    (hstep : step s = some (s', cs, ds)) :
    s'.tsMax ∈ cs ++ ds ∧ ∀ t ∈ cs ++ ds, t ≤ s'.tsMax := by
  obtain ⟨-, -, hm, -, -⟩ := step_elim hstep
  exact pyMax_spec hm

/-- Witness for C6 at the concrete first step of the C1 session: the new
watermark 200 is a chosen timestamp and bounds both chosen timestamps. -/
theorem claim6_watermark_is_max_witness :
    (200 : Nat) ∈ ([200] ++ [105] : List Nat) ∧
    ∀ t ∈ ([200] ++ [105] : List Nat), t ≤ 200 :=
  claim6_watermark_is_max
    { colorTs := [[100, 200]], depthTs := [[105, 205]],
      counterColor := [0], counterDepth := [0], tsMax := 105 }
    { colorTs := [[100, 200]], depthTs := [[105, 205]],
      counterColor := [0], counterDepth := [0], tsMax := 200 }
    [200] [105] (by decide)

/-- C10: whatever exception the session loop raises — `b = true` for
`Exception` subclasses such as the `StopIteration` of an exhausted scan,
which the handler prints before calling `exit(1)`, and `b = false` for
the rest — the `exit(0)` in the `finally` block replaces the in-flight
outcome (including the handler's `SystemExit(1)`), so the process always
terminates with exit status 0 on this path. -/
theorem claim10_exit_status_zero (b : Bool) :
    mainExit (PyOutcome.raised b) = PyOutcome.exited 0 := by
  cases b <;> rfl

/-! ### Supporting lemmas about the stream index -/

theorem pySorted_sorted (l : List String) :
    List.Sorted StrLe (pySorted l) :=
  List.sorted_insertionSort StrLe l

theorem sensorScan_only_fnf {sel : SessionDir → Option (List String)}
    {sess : List (String × SessionDir)} {e : PyError}
    (h : sensorScan sel sess = Except.error e) : e = PyError.fileNotFound := by
  induction sess with
  | nil => simp [sensorScan] at h
  | cons q rest ih =>
    obtain ⟨s, sd⟩ := q
    simp only [sensorScan] at h
    split at h
    · exact (Except.error.inj h).symm
    · split at h
      next e2 hr =>
        obtain rfl := Except.error.inj h
        exact ih hr
      next out hr => exact absurd h (by simp)

theorem sensorScan_missing {sel : SessionDir → Option (List String)}
    {sess : List (String × SessionDir)}
    (h : ∃ q ∈ sess, sel q.2 = none) :
    sensorScan sel sess = Except.error PyError.fileNotFound := by
  induction sess with
  | nil => simp at h
  | cons q rest ih =>
    obtain ⟨s, sd⟩ := q
    simp only [sensorScan]
    obtain ⟨q0, hq0, hnone⟩ := h
    rcases List.mem_cons.mp hq0 with rfl | hmem
    · rw [hnone]
    · cases hs : sel sd with
      | none => rfl
      | some files =>
        rw [ih ⟨q0, hmem, hnone⟩]

theorem sensorScan_ok {sel : SessionDir → Option (List String)}
    {sess : List (String × SessionDir)}
    (h : ∀ q ∈ sess, (sel q.2).isSome) :
    sensorScan sel sess =
      Except.ok ((sess.map (fun q => pySorted ((sel q.2).getD []))).flatten) := by
  induction sess with
  | nil => rfl
  | cons q rest ih =>
    obtain ⟨s, sd⟩ := q
    simp only [sensorScan]
    have hhead := h (s, sd) (List.mem_cons_self _ _)
    cases hs : sel sd with
    | none => rw [hs] at hhead; simp at hhead
    | some files =>
      rw [ih (fun q hq => h q (List.mem_cons_of_mem _ hq))]
      simp [hs]

theorem get_filepathsGo_only_fnf {sel : SessionDir → Option (List String)}
    {l : List (String × DeviceDir)} {e : PyError}
    (h : get_filepathsGo sel l = Except.error e) : e = PyError.fileNotFound := by
  induction l with
  | nil => simp [get_filepathsGo] at h
  | cons p rest ih =>
    obtain ⟨dev, dd⟩ := p
    simp only [get_filepathsGo] at h
    split at h
    next e2 hr =>
      obtain rfl := Except.error.inj h
      exact sensorScan_only_fnf hr
    next fs hr =>
      split at h
      next e2 hgo =>
        obtain rfl := Except.error.inj h
        exact ih hgo
      next out hgo => exact absurd h (by simp)

theorem get_filepathsGo_missing {sel : SessionDir → Option (List String)}
    {l : List (String × DeviceDir)}
    (h : ∃ p ∈ l, ∃ q ∈ p.2.sessions, sel q.2 = none) :
    get_filepathsGo sel l = Except.error PyError.fileNotFound := by
  induction l with
  | nil => simp at h
  | cons p rest ih =>
    obtain ⟨dev, dd⟩ := p
    simp only [get_filepathsGo]
    obtain ⟨p0, hp0, q0, hq0, hnone⟩ := h
    rcases List.mem_cons.mp hp0 with rfl | hmem
    · rw [sensorScan_missing ⟨q0, mem_sortKV.mpr hq0, hnone⟩]
    · cases hs : sensorScan sel (sortKV dd.sessions) with
      | error e2 =>
        obtain rfl := sensorScan_only_fnf hs
        rfl
      | ok fs =>
        rw [ih ⟨p0, hmem, q0, hq0, hnone⟩]

theorem get_filepathsGo_ok {sel : SessionDir → Option (List String)}
    {l : List (String × DeviceDir)}
    (h : ∀ p ∈ l, ∀ q ∈ p.2.sessions, (sel q.2).isSome) :
    get_filepathsGo sel l =
      Except.ok (l.map (fun p => (p.1, sensorSpec sel p.2))) := by
  induction l with
  | nil => rfl
  | cons p rest ih =>
    obtain ⟨dev, dd⟩ := p
    simp only [get_filepathsGo]
    have hdev : ∀ q ∈ sortKV dd.sessions, (sel q.2).isSome :=
      fun q hq => h (dev, dd) (List.mem_cons_self _ _) q (mem_sortKV.mp hq)
    rw [sensorScan_ok hdev, ih (fun p hp => h p (List.mem_cons_of_mem _ hp))]
    simp [sensorSpec]

theorem get_filepaths_ok {sel : SessionDir → Option (List String)}
    {base : BaseDir}
    (h : ∀ p ∈ base, ∀ q ∈ p.2.sessions, (sel q.2).isSome) :
    get_filepaths base sel = Except.ok (indexSpec sel base) :=
  get_filepathsGo_ok (fun p hp => h p (mem_sortKV.mp hp))

/-! ### Claim theorems about the stream index -/

/-- Counterexample to C5: on the layout `base5ex`, whose color files are
`9.bin` and `10.bin`, the stream index keys device `d0`'s color sequence
as `[10, 9]` — Python's `sorted` ordered the filenames lexicographically
(`"10.bin" < "9.bin"`), so the produced timestamp sequence is not
ascending by integer timestamp value. -/
theorem claim5_not_numeric_order :
    (get_filepaths_with_timestamps base5ex).map
      (fun r => r.colorDict.map (fun p => (p.1, p.2.map Prod.fst))) =
      Except.ok [("d0", [10, 9])] ∧
    ¬ List.Sorted (· ≤ ·) ([10, 9] : List Nat) := by decide

/-- C5 (amended): when every selected sensor directory is present, each
device's file sequence is the concatenation, over recording sessions in
sorted-name order, of that session's listing sorted in lexicographic
(Python string) order — and each per-session block is `StrLe`-sorted.
Numeric timestamp order coincides with this only when the timestamp
strings are equally wide. -/
theorem claim5_lexicographic_order (base : BaseDir)
    (sel : SessionDir → Option (List String))
    (hpres : ∀ p ∈ base, ∀ q ∈ p.2.sessions, (sel q.2).isSome) :
    get_filepaths base sel = Except.ok (indexSpec sel base) ∧
    ∀ p ∈ base, ∀ q ∈ p.2.sessions,
      List.Sorted StrLe (pySorted ((sel q.2).getD [])) := by
  refine ⟨get_filepaths_ok hpres, ?_⟩
  intro p hp q hq
  exact pySorted_sorted _

/-- Witness for C5 (amended) on the concrete layout `base5ex`: the color
scan succeeds and equals its sorted-per-session description. -/
theorem claim5_lexicographic_order_witness :
    get_filepaths base5ex SessionDir.colorFiles =
      Except.ok (indexSpec SessionDir.colorFiles base5ex) ∧
    ∀ p ∈ base5ex, ∀ q ∈ p.2.sessions,
      List.Sorted StrLe (pySorted ((SessionDir.colorFiles q.2).getD [])) :=
  claim5_lexicographic_order base5ex SessionDir.colorFiles (by decide)

/-- Counterexample to C8: on `base8ex` the device has the two calib files
`a.json` and `b.json`; discovery order (sorted) visits `a.json` first,
but `get_calib` keeps the LAST dict assignment, so the selected record is
`b.json`, not the first one found. -/
theorem claim8_not_first_found :
    get_calib base8ex = Except.ok [("d0", "b.json")] ∧
    (pySorted ["a.json", "b.json"]).head? = some "a.json" ∧
    ("b.json" : String) ≠ "a.json" := by decide

/-! ### Dict-assignment lemmas for the calibration scan -/

theorem dictSet_fresh {κ α : Type} [DecidableEq κ] {d : List (κ × α)}
    {k : κ} (v : α) (h : k ∉ d.map Prod.fst) :
    dictSet d k v = d ++ [(k, v)] := by
  induction d with
  | nil => rfl
  | cons p rest ih =>
    obtain ⟨k', v'⟩ := p
    simp only [List.map_cons, List.mem_cons] at h
    push_neg at h
    obtain ⟨h1, h2⟩ := h
    simp only [dictSet, if_neg h1]
    rw [ih h2]
    rfl

theorem dictSet_overwrite_end {κ α : Type} [DecidableEq κ]
    {d : List (κ × α)} {k : κ} (v v2 : α) (h : k ∉ d.map Prod.fst) :
    dictSet (d ++ [(k, v)]) k v2 = d ++ [(k, v2)] := by
  induction d with
  | nil => simp [dictSet]
  | cons p rest ih =>
    obtain ⟨k', v'⟩ := p
    simp only [List.map_cons, List.mem_cons] at h
    push_neg at h
    obtain ⟨h1, h2⟩ := h
    show dictSet ((k', v') :: (rest ++ [(k, v)])) k v2 =
      (k', v') :: (rest ++ [(k, v2)])
    simp only [dictSet, if_neg h1]
    rw [ih h2]

theorem getLast?_cons_eq {α : Type} (f : α) (fs : List α) :
    (f :: fs).getLast? = some ((fs.getLast?).getD f) := by
  induction fs generalizing f with
  | nil => rfl
  | cons g gs ih =>
    rw [List.getLast?_cons_cons, ih g]
    simp [ih]

theorem foldl_dictSet_last {κ α : Type} [DecidableEq κ] (k : κ) :
    ∀ (fs : List α) (acc : List (κ × α)) (v : α), k ∉ acc.map Prod.fst →
      fs.foldl (fun a f => dictSet a k f) (acc ++ [(k, v)]) =
        acc ++ [(k, (fs.getLast?).getD v)] := by
  intro fs
  induction fs with
  | nil => intro acc v h; rfl
  | cons f fs ih =>
    intro acc v h
    simp only [List.foldl_cons]
    rw [dictSet_overwrite_end v f h, ih acc f h, getLast?_cons_eq f fs]
    simp

theorem foldl_dictSet_fresh {κ α : Type} [DecidableEq κ] (k : κ)
    (fs : List α) (acc : List (κ × α)) (h : k ∉ acc.map Prod.fst) :
    fs.foldl (fun a f => dictSet a k f) acc =
      appendIfSome acc k fs.getLast? := by
  cases fs with
  | nil => rfl
  | cons f fs =>
    simp only [List.foldl_cons]
    rw [dictSet_fresh f h, foldl_dictSet_last k fs acc f h,
      getLast?_cons_eq f fs]
    rfl

theorem calibScan_ok {dev : String} {sess : List (String × SessionDir)} :
    ∀ acc, (∀ q ∈ sess, (q.2.calibFiles).isSome) →
      calibScan dev sess acc = Except.ok
        (((sess.map (fun q => pySorted (q.2.calibFiles.getD []))).flatten).foldl
          (fun a f => dictSet a dev f) acc) := by
  induction sess with
  | nil => intro acc h; rfl
  | cons q rest ih =>
    obtain ⟨s, sd⟩ := q
    intro acc h
    have hhead := h (s, sd) (List.mem_cons_self _ _)
    simp only [calibScan]
    cases hs : sd.calibFiles with
    | none => rw [hs] at hhead; simp at hhead
    | some files =>
      show calibScan dev rest
          ((pySorted files).foldl (fun a f => dictSet a dev f) acc) = _
      rw [ih _ (fun q hq => h q (List.mem_cons_of_mem _ hq))]
      simp [hs, List.foldl_append]

theorem calibScan_spec {dev : String} {dd : DeviceDir}
    {acc : List (String × String)}
    (hp : ∀ q ∈ dd.sessions, (q.2.calibFiles).isSome)
    (hk : dev ∉ acc.map Prod.fst) :
    calibScan dev (sortKV dd.sessions) acc =
      Except.ok (appendIfSome acc dev (calibSpecOfDevice dd)) := by
  rw [calibScan_ok acc (fun q hq => hp q (mem_sortKV.mp hq))]
  rw [foldl_dictSet_fresh dev _ acc hk]
  rfl

theorem get_calibGo_spec :
    ∀ (l : List (String × DeviceDir)) (acc : List (String × String)),
      (∀ p ∈ l, ∀ q ∈ p.2.sessions, (q.2.calibFiles).isSome) →
      (l.map Prod.fst).Nodup →
      (∀ k ∈ acc.map Prod.fst, k ∉ l.map Prod.fst) →
      get_calibGo l acc = Except.ok
        (acc ++ l.filterMap
          (fun p => (calibSpecOfDevice p.2).map (fun f => (p.1, f)))) := by
  intro l
  induction l with
  | nil => intro acc _ _ _; simp [get_calibGo]
  | cons p rest ih =>
    obtain ⟨dev, dd⟩ := p
    intro acc hp hnd hdisj
    simp only [get_calibGo]
    have hdevfresh : dev ∉ acc.map Prod.fst := by
      intro hmem
      exact hdisj dev hmem (by simp)
    have hndrest : (rest.map Prod.fst).Nodup :=
      (List.nodup_cons.mp (by simpa using hnd)).2
    have hdevrest : dev ∉ rest.map Prod.fst :=
      (List.nodup_cons.mp (by simpa using hnd)).1
    have hprest : ∀ p ∈ rest, ∀ q ∈ p.2.sessions, (q.2.calibFiles).isSome :=
      fun p hpm => hp p (List.mem_cons_of_mem _ hpm)
    have hscan := calibScan_spec
      (hp (dev, dd) (List.mem_cons_self _ _)) hdevfresh
    cases hc : calibSpecOfDevice dd with
    | none =>
      rw [hc] at hscan
      simp only [appendIfSome] at hscan
      rw [hscan]
      show get_calibGo rest acc = _
      rw [ih acc hprest hndrest
        (fun k hk hk2 => hdisj k hk (List.mem_cons_of_mem _ hk2))]
      simp [List.filterMap_cons, hc]
    | some f =>
      rw [hc] at hscan
      simp only [appendIfSome] at hscan
      rw [hscan]
      show get_calibGo rest (acc ++ [(dev, f)]) = _
      have hdisj2 : ∀ k ∈ (acc ++ [(dev, f)]).map Prod.fst,
          k ∉ rest.map Prod.fst := by
        intro k hk
        rw [List.map_append] at hk
        rcases List.mem_append.mp hk with hk | hk
        · exact fun hk2 => hdisj k hk (List.mem_cons_of_mem _ hk2)
        · have hkdev : k = dev := by simpa using hk
          subst hkdev
          exact hdevrest
      rw [ih (acc ++ [(dev, f)]) hprest hndrest hdisj2]
      simp [List.filterMap_cons, hc]

/-- C8 (amended): `get_calib` keeps exactly one record per device that
has any calib file — and it is the LAST file found per device in
discovery order (sorted sessions, then sorted filenames), because each
file overwrites the device's dict entry; devices whose names are the
distinct names a directory listing yields. -/
theorem claim8_last_found (base : BaseDir)
    (hnd : (base.map Prod.fst).Nodup)
    (hp : ∀ p ∈ base, ∀ q ∈ p.2.sessions, (q.2.calibFiles).isSome) :
    get_calib base = Except.ok (calibSpec base) := by
  unfold get_calib calibSpec
  have hperm : List.Perm ((sortKV base).map Prod.fst) (base.map Prod.fst) :=
    (List.perm_insertionSort _ base).map Prod.fst
  rw [get_calibGo_spec (sortKV base) []
    (fun p hpm => hp p (mem_sortKV.mp hpm))
    (hperm.nodup_iff.mpr hnd)
    (fun k hk => by simp at hk)]
  simp

/-- Witness for C8 (amended) on the concrete layout `base8ex`: the scan
succeeds and picks the last sorted calib file, `b.json`. -/
theorem claim8_last_found_witness :
    get_calib base8ex = Except.ok (calibSpec base8ex) :=
  claim8_last_found base8ex (by decide) (by decide)

/-! ### Error-propagation lemmas for `build` (claim C7) -/

theorem except_bind_ok {α β : Type} (a : α) (f : α → Except PyError β) :
    (Except.ok a : Except PyError α) >>= f = f a := rfl

theorem except_bind_error {α β : Type} (e : PyError)
    (f : α → Except PyError β) :
    (Except.error e : Except PyError α) >>= f = Except.error e := rfl

theorem get_filepaths_only_fnf {sel : SessionDir → Option (List String)}
    {base : BaseDir} {e : PyError}
    (h : get_filepaths base sel = Except.error e) :
    e = PyError.fileNotFound :=
  get_filepathsGo_only_fnf h

theorem get_filepaths_missing {sel : SessionDir → Option (List String)}
    {base : BaseDir}
    (h : ∃ p ∈ base, ∃ q ∈ p.2.sessions, sel q.2 = none) :
    get_filepaths base sel = Except.error PyError.fileNotFound := by
  obtain ⟨p0, hp0, hq⟩ := h
  exact get_filepathsGo_missing ⟨p0, mem_sortKV.mpr hp0, hq⟩

theorem calibScan_only_fnf {dev : String} {sess : List (String × SessionDir)} :
    ∀ {acc : List (String × String)} {e : PyError},
      calibScan dev sess acc = Except.error e → e = PyError.fileNotFound := by
  induction sess with
  | nil => intro acc e h; simp [calibScan] at h
  | cons q rest ih =>
    obtain ⟨s, sd⟩ := q
    intro acc e h
    simp only [calibScan] at h
    split at h
    · exact (Except.error.inj h).symm
    · exact ih h

theorem calibScan_missing {dev : String} {sess : List (String × SessionDir)}
    (h : ∃ q ∈ sess, q.2.calibFiles = none) :
    ∀ acc, calibScan dev sess acc = Except.error PyError.fileNotFound := by
  induction sess with
  | nil => simp at h
  | cons q rest ih =>
    obtain ⟨s, sd⟩ := q
    intro acc
    simp only [calibScan]
    obtain ⟨q0, hq0, hnone⟩ := h
    rcases List.mem_cons.mp hq0 with rfl | hmem
    · rw [hnone]
    · cases hs : sd.calibFiles with
      | none => rfl
      | some files => exact ih ⟨q0, hmem, hnone⟩ _

theorem get_calibGo_only_fnf {l : List (String × DeviceDir)} :
    ∀ {acc : List (String × String)} {e : PyError},
      get_calibGo l acc = Except.error e → e = PyError.fileNotFound := by
  induction l with
  | nil => intro acc e h; simp [get_calibGo] at h
  | cons p rest ih =>
    obtain ⟨dev, dd⟩ := p
    intro acc e h
    simp only [get_calibGo] at h
    split at h
    next e2 hr =>
      obtain rfl := Except.error.inj h
      exact calibScan_only_fnf hr
    next acc2 hr => exact ih h

theorem get_calibGo_missing {l : List (String × DeviceDir)}
    (h : ∃ p ∈ l, ∃ q ∈ p.2.sessions, q.2.calibFiles = none) :
    ∀ acc, get_calibGo l acc = Except.error PyError.fileNotFound := by
  induction l with
  | nil => simp at h
  | cons p rest ih =>
    obtain ⟨dev, dd⟩ := p
    intro acc
    simp only [get_calibGo]
    obtain ⟨p0, hp0, q0, hq0, hnone⟩ := h
    rcases List.mem_cons.mp hp0 with rfl | hmem
    · rw [calibScan_missing ⟨q0, mem_sortKV.mpr hq0, hnone⟩ acc]
    · cases hs : calibScan dev (sortKV dd.sessions) acc with
      | error e2 =>
        obtain rfl := calibScan_only_fnf hs
        rfl
      | ok acc2 => exact ih ⟨p0, hmem, q0, hq0, hnone⟩ _

theorem get_calib_missing {base : BaseDir}
    (h : ∃ p ∈ base, ∃ q ∈ p.2.sessions, q.2.calibFiles = none) :
    get_calib base = Except.error PyError.fileNotFound := by
  obtain ⟨p0, hp0, hq⟩ := h
  exact get_calibGo_missing ⟨p0, mem_sortKV.mpr hp0, hq⟩ []

theorem get_calibGo_ok_exists {l : List (String × DeviceDir)}
    (h : ∀ p ∈ l, ∀ q ∈ p.2.sessions, (q.2.calibFiles).isSome) :
    ∀ acc, ∃ out, get_calibGo l acc = Except.ok out := by
  induction l with
  | nil => intro acc; exact ⟨acc, rfl⟩
  | cons p rest ih =>
    obtain ⟨dev, dd⟩ := p
    intro acc
    simp only [get_calibGo]
    rw [calibScan_ok acc (fun q hq =>
      h (dev, dd) (List.mem_cons_self _ _) q (mem_sortKV.mp hq))]
    exact ih (fun p hp => h p (List.mem_cons_of_mem _ hp)) _

theorem foldl_min_le (xs : List Nat) (x : Nat) :
    ∀ t ∈ x :: xs, xs.foldl min x ≤ t := by
  induction xs generalizing x with
  | nil =>
    intro t ht
    simp only [List.mem_singleton] at ht
    simp [ht]
  | cons y ys ih =>
    intro t ht
    simp only [List.foldl_cons]
    have hhead : ys.foldl min (min x y) ≤ min x y :=
      ih (min x y) (min x y) (List.mem_cons_self _ _)
    simp only [List.mem_cons] at ht
    rcases ht with h | h | h
    · subst h; exact le_trans hhead (min_le_left t y)
    · subst h; exact le_trans hhead (min_le_right x t)
    · exact ih (min x y) t (List.mem_cons_of_mem _ h)

theorem zipLen_zero_of_mem_nil {ls : List (List String)}
    (h : ([] : List String) ∈ ls) : zipLen ls = 0 := by
  cases ls with
  | nil => simp at h
  | cons l rest =>
    simp only [zipLen]
    rcases List.mem_cons.mp h with rfl | hmem
    · exact Nat.le_zero.mp (foldl_min_le _ _ _ (List.mem_cons_self _ _))
    · have h0 : (0 : Nat) ∈ l.length :: rest.map List.length :=
        List.mem_cons_of_mem _
          (List.mem_map.mpr ⟨[], hmem, rfl⟩)
      exact Nat.le_zero.mp (foldl_min_le _ _ _ h0)

theorem sortKV_ne_nil {α : Type} {l : List (String × α)} (h : l ≠ []) :
    sortKV l ≠ [] := by
  intro hs
  apply h
  have hlen := (List.perm_insertionSort
    (fun p q : String × α => StrLe p.1 q.1) l).length_eq
  unfold sortKV at hs
  rw [hs] at hlen
  exact List.eq_nil_of_length_eq_zero hlen.symm

theorem buildDicts_ok_of_empty {devColor devDepth : List (String × List String)}
    {devCalib : List (String × String)}
    (hne : devColor ≠ [])
    (hempty : ([] : List String) ∈ devColor.map Prod.snd ∨
      ([] : List String) ∈ devDepth.map Prod.snd) :
    ∃ r, buildDicts devColor devDepth devCalib = Except.ok r := by
  obtain ⟨p0, rest0, rfl⟩ := List.exists_cons_of_ne_nil hne
  have hz : zipLen ((devCalib.map Prod.fst).map
      (fun d => List.replicate p0.2.length d) ++
      ((devCalib.map Prod.snd).map (fun c => List.replicate p0.2.length c) ++
        ((p0 :: rest0).map Prod.snd ++ devDepth.map Prod.snd))) = 0 := by
    apply zipLen_zero_of_mem_nil
    rcases hempty with hm | hm
    · exact List.mem_append.mpr (Or.inr (List.mem_append.mpr
        (Or.inr (List.mem_append.mpr (Or.inl hm)))))
    · exact List.mem_append.mpr (Or.inr (List.mem_append.mpr
        (Or.inr (List.mem_append.mpr (Or.inr hm)))))
  refine ⟨{ colorDict := devCalib.map (fun p => (p.1, [])),
            depthDict := devCalib.map (fun p => (p.1, [])),
            numData := p0.2.length, numDev := devCalib.length }, ?_⟩
  unfold buildDicts
  simp only [List.head?_cons, except_bind_ok, zipRows]
  rw [hz]
  rfl

/-- Counterexample to C7 as stated: on `base7ex` the only device's color
and depth streams are empty, yet `get_filepaths_with_timestamps`
succeeds — it returns an index whose sequences are empty (`num_data = 0`)
instead of failing with a discovery error. -/
theorem claim7_empty_stream_no_error :
    get_filepaths_with_timestamps base7ex =
      Except.ok { colorDict := [("d0", [])], depthDict := [("d0", [])],
                  numData := 0, numDev := 1 } := by decide

/-- C7 (amended): index construction fails — with `FileNotFoundError`,
the only discovery failure the code raises — whenever some recording
session lacks its `color`, `depth` or `calib` subdirectory; an empty
device stream, by contrast, does NOT fail the build: when every directory
is present and some device's color or depth file sequence is empty,
`get_filepaths_with_timestamps` succeeds (the `zip` just produces no
rows). -/
theorem claim7_discovery_conditions :
    (∀ base : BaseDir,
      (∃ p ∈ base, ∃ q ∈ p.2.sessions,
        q.2.colorFiles = none ∨ q.2.depthFiles = none ∨
          q.2.calibFiles = none) →
      get_filepaths_with_timestamps base =
        Except.error PyError.fileNotFound) ∧
    (∀ base : BaseDir, base ≠ [] →
      (∀ p ∈ base, ∀ q ∈ p.2.sessions,
        (q.2.colorFiles).isSome ∧ (q.2.depthFiles).isSome ∧
          (q.2.calibFiles).isSome) →
      (∃ p ∈ base, sensorSpec SessionDir.colorFiles p.2 = [] ∨
        sensorSpec SessionDir.depthFiles p.2 = []) →
      ∃ r, get_filepaths_with_timestamps base = Except.ok r) := by
  constructor
  · intro base hmiss
    obtain ⟨p0, hp0, q0, hq0, hor⟩ := hmiss
    unfold get_filepaths_with_timestamps
    rcases hor with hcol | hdep | hcal
    · rw [get_filepaths_missing ⟨p0, hp0, q0, hq0, hcol⟩]
      rfl
    · cases hc : get_filepaths base SessionDir.colorFiles with
      | error e =>
        obtain rfl := get_filepaths_only_fnf hc
        rfl
      | ok dc =>
        rw [except_bind_ok,
          get_filepaths_missing ⟨p0, hp0, q0, hq0, hdep⟩]
        rfl
    · cases hc : get_filepaths base SessionDir.colorFiles with
      | error e =>
        obtain rfl := get_filepaths_only_fnf hc
        rfl
      | ok dc =>
        rw [except_bind_ok]
        cases hd : get_filepaths base SessionDir.depthFiles with
        | error e =>
          obtain rfl := get_filepaths_only_fnf hd
          rfl
        | ok dd2 =>
          rw [except_bind_ok,
            get_calib_missing ⟨p0, hp0, q0, hq0, hcal⟩]
          rfl
  · intro base hne hpres hempty
    have hcol : get_filepaths base SessionDir.colorFiles =
        Except.ok (indexSpec SessionDir.colorFiles base) :=
      get_filepaths_ok (fun p hp q hq => (hpres p hp q hq).1)
    have hdep : get_filepaths base SessionDir.depthFiles =
        Except.ok (indexSpec SessionDir.depthFiles base) :=
      get_filepaths_ok (fun p hp q hq => (hpres p hp q hq).2.1)
    have hcalEx : ∃ cal, get_calib base = Except.ok cal := by
      unfold get_calib
      exact get_calibGo_ok_exists
        (fun p hp q hq => (hpres p (mem_sortKV.mp hp) q hq).2.2) []
    obtain ⟨cal, hcal⟩ := hcalEx
    have hne2 : indexSpec SessionDir.colorFiles base ≠ [] := by
      unfold indexSpec
      intro hmap
      exact sortKV_ne_nil hne (List.map_eq_nil_iff.mp hmap)
    have hempty2 :
        ([] : List String) ∈
            (indexSpec SessionDir.colorFiles base).map Prod.snd ∨
        ([] : List String) ∈
            (indexSpec SessionDir.depthFiles base).map Prod.snd := by
      obtain ⟨p0, hp0, hor⟩ := hempty
      rcases hor with hcase | hcase
      · left
        unfold indexSpec
        rw [List.map_map]
        exact List.mem_map.mpr ⟨p0, mem_sortKV.mpr hp0, hcase⟩
      · right
        unfold indexSpec
        rw [List.map_map]
        exact List.mem_map.mpr ⟨p0, mem_sortKV.mpr hp0, hcase⟩
    obtain ⟨r, hr⟩ := @buildDicts_ok_of_empty
      (indexSpec SessionDir.colorFiles base)
      (indexSpec SessionDir.depthFiles base) cal hne2 hempty2
    refine ⟨r, ?_⟩
    unfold get_filepaths_with_timestamps
    rw [hcol, except_bind_ok, hdep, except_bind_ok, hcal, except_bind_ok, hr]

/-- Witness for C7 (amended): the missing-`color`-directory layout
`base7mx` fails with `FileNotFoundError`, and the empty-stream layout
`base7ex` builds successfully. -/
theorem claim7_discovery_conditions_witness :
    get_filepaths_with_timestamps base7mx =
      Except.error PyError.fileNotFound ∧
    ∃ r, get_filepaths_with_timestamps base7ex = Except.ok r := by
  constructor
  · exact claim7_discovery_conditions.1 base7mx
      ⟨_, List.mem_cons_self _ _, _, List.mem_cons_self _ _, Or.inl rfl⟩
  · exact claim7_discovery_conditions.2 base7ex (by decide) (by decide)
      ⟨_, List.mem_cons_self _ _, Or.inl (by decide)⟩

/-! ### Lemmas for the zip-truncation claim (C9) -/

theorem foldl_min_mem (xs : List Nat) (x : Nat) : xs.foldl min x ∈ x :: xs := by
  induction xs generalizing x with
  | nil => simp
  | cons y ys ih =>
    simp only [List.foldl_cons]
    rcases List.mem_cons.mp (ih (min x y)) with h | h
    · rcases min_choice x y with hm | hm
      · exact List.mem_cons.mpr (Or.inl (by rw [h, hm]))
      · exact List.mem_cons_of_mem _ (List.mem_cons.mpr (Or.inl (by rw [h, hm])))
    · exact List.mem_cons_of_mem _ (List.mem_cons_of_mem _ h)

theorem zipLen_mem {ls : List (List String)} (h : ls ≠ []) :
    zipLen ls ∈ ls.map List.length := by
  cases ls with
  | nil => exact absurd rfl h
  | cons l rest =>
    simp only [zipLen, List.map_cons]
    exact foldl_min_mem _ _

theorem zipLen_le {ls : List (List String)} :
    ∀ m ∈ ls.map List.length, zipLen ls ≤ m := by
  cases ls with
  | nil => intro m hm; simp at hm
  | cons l rest =>
    intro m hm
    simp only [List.map_cons] at hm
    exact foldl_min_le _ _ m hm

theorem foldr_min_le_init (ns : List Nat) (init : Nat) :
    ns.foldr min init ≤ init := by
  induction ns with
  | nil => exact le_refl _
  | cons n ns ih => exact le_trans (min_le_right _ _) ih

theorem foldr_min_le_mem (ns : List Nat) (init : Nat) :
    ∀ m ∈ ns, ns.foldr min init ≤ m := by
  induction ns with
  | nil => intro m hm; simp at hm
  | cons n ns ih =>
    intro m hm
    rcases List.mem_cons.mp hm with rfl | hm
    · exact min_le_left _ _
    · exact le_trans (min_le_right _ _) (ih m hm)

theorem foldr_min_cases (ns : List Nat) (init : Nat) :
    ns.foldr min init = init ∨ ns.foldr min init ∈ ns := by
  induction ns with
  | nil => exact Or.inl rfl
  | cons n ns ih =>
    simp only [List.foldr_cons]
    rcases min_choice n (ns.foldr min init) with hm | hm
    · rw [hm]
      exact Or.inr (List.mem_cons_self _ _)
    · rw [hm]
      rcases ih with h | h
      · exact Or.inl h
      · exact Or.inr (List.mem_cons_of_mem _ h)

theorem tupleGet_eq {row : List String} {idx : Nat} {s : String}
    (h : row.get? idx = some s) : tupleGet row idx = Except.ok s := by
  unfold tupleGet
  rw [h]

theorem lists_get_blocks {α : Type} (A B C D : List α) (n m : Nat)
    (hA : A.length = n) (hB : B.length = n) (hC : C.length = n)
    (hm : m < n) :
    (A ++ (B ++ (C ++ D))).get? (0 * n + m) = A.get? m ∧
    (A ++ (B ++ (C ++ D))).get? (1 * n + m) = B.get? m ∧
    (A ++ (B ++ (C ++ D))).get? (2 * n + m) = C.get? m ∧
    (A ++ (B ++ (C ++ D))).get? (3 * n + m) = D.get? m := by
  refine ⟨?_, ?_, ?_, ?_⟩
  · rw [Nat.zero_mul, Nat.zero_add]
    exact List.get?_append (by omega)
  · rw [Nat.one_mul]
    rw [List.get?_append_right (by omega), hA]
    rw [show n + m - n = m by omega]
    exact List.get?_append (by omega)
  · rw [List.get?_append_right (by omega), hA]
    rw [show 2 * n + m - n = n + m by omega]
    rw [List.get?_append_right (by omega), hB]
    rw [show n + m - n = m by omega]
    exact List.get?_append (by omega)
  · rw [List.get?_append_right (by omega), hA]
    rw [show 3 * n + m - n = 2 * n + m by omega]
    rw [List.get?_append_right (by omega), hB]
    rw [show 2 * n + m - n = n + m by omega]
    rw [List.get?_append_right (by omega), hC]
    rw [show n + m - n = m by omega]

theorem nodup_not_mem_take {α : Type} {l : List α} (h : l.Nodup)
    {m : Nat} (hm : m < l.length) : l[m] ∉ l.take m := by
  intro hmem
  have hnd2 : (l.take m ++ l.drop m).Nodup := by
    rw [List.take_append_drop]
    exact h
  have hdisj := (List.nodup_append.mp hnd2).2.2
  have hdrop : l[m] ∈ l.drop m := by
    rw [List.drop_eq_getElem_cons hm]
    exact List.mem_cons_self _ _
  exact hdisj hmem hdrop

theorem dictSetIn_at {d₁ d₂ : List (String × List (Nat × (String × String)))}
    {dev : String} {inner : List (Nat × (String × String))}
    (hfresh : dev ∉ d₁.map Prod.fst) (ts : Nat) (v : String × String) :
    dictSetIn (d₁ ++ (dev, inner) :: d₂) dev ts v =
      Except.ok (d₁ ++ (dev, dictSet inner ts v) :: d₂) := by
  induction d₁ with
  | nil => simp [dictSetIn]
  | cons p rest ih =>
    obtain ⟨k, w⟩ := p
    simp only [List.map_cons, List.mem_cons] at hfresh
    push_neg at hfresh
    obtain ⟨h1, h2⟩ := hfresh
    show dictSetIn ((k, w) :: (rest ++ (dev, inner) :: d₂)) dev ts v =
      Except.ok ((k, w) :: (rest ++ (dev, dictSet inner ts v) :: d₂))
    simp only [dictSetIn, if_neg h1]
    rw [ih h2]

theorem zip_take_take {α β : Type} :
    ∀ (l₁ : List α) (l₂ : List β) (n : Nat),
      (l₁.zip l₂).take n = (l₁.take n).zip (l₂.take n) := by
  intro l₁
  induction l₁ with
  | nil => intro l₂ n; simp
  | cons a l₁ ih =>
    intro l₂ n
    cases l₂ with
    | nil => simp
    | cons b l₂ =>
      cases n with
      | zero => simp
      | succ n => simp [List.zip_cons_cons, ih]

theorem zip_map_fst_eq {α β γ : Type} (f : α → γ) :
    ∀ (l₁ : List α) (l₂ : List β), l₁.length = l₂.length →
      (l₁.zip l₂).map (fun pc => f pc.1) = l₁.map f := by
  intro l₁
  induction l₁ with
  | nil => intro l₂ h; simp
  | cons a l₁ ih =>
    intro l₂ h
    cases l₂ with
    | nil => simp at h
    | cons b l₂ =>
      simp only [List.zip_cons_cons, List.map_cons]
      rw [ih l₂ (by simpa using h)]

theorem rowsLoop_append (n : Nat) :
    ∀ (rs rs2 : List (List String)) d,
      rowsLoop n (rs ++ rs2) d = rowsLoop n rs d >>= rowsLoop n rs2 := by
  intro rs
  induction rs with
  | nil => intro rs2 d; rfl
  | cons row rs ih =>
    intro rs2 d
    simp only [List.cons_append, rowsLoop]
    cases hr : rowLoop n row (List.range n) d with
    | error e => rfl
    | ok d2 => exact ih rs2 d2


theorem replicate_getD {α : Type} {m j : Nat} (a d : α) (h : j < m) :
    (List.replicate m a).getD j d = a := by
  rw [List.getD_eq_getElem _ _ (by simpa using h), List.getElem_replicate]

theorem dictSetIn_truncState
    (devCalib : List (String × String))
    (devFiles : List (String × List String))
    (k m ts : Nat)
    (hlen : devFiles.length = devCalib.length)
    (hnd : (devCalib.map Prod.fst).Nodup)
    (hm : m < devCalib.length)
    (hmf : m < devFiles.length)
    (hkf : k < devFiles[m].2.length)
    (hts : parseTs (devFiles[m].2.getD k "") = some ts)
    (hndts : (devFiles[m].2.map (fun f => (parseTs f).getD 0)).Nodup) :
    dictSetIn (truncState devCalib devFiles k m) devCalib[m].1 ts
      (devCalib[m].2, devFiles[m].2.getD k "") =
      Except.ok (truncState devCalib devFiles k (m + 1)) := by
  have hzlen : (devCalib.zip devFiles).length = devCalib.length := by
    rw [List.length_zip, hlen, Nat.min_self]
  have hmz : m < (devCalib.zip devFiles).length := by omega
  have hzipm : (devCalib.zip devFiles)[m] = (devCalib[m], devFiles[m]) :=
    List.getElem_zip
  have hstate : truncState devCalib devFiles k m =
      ((devCalib.zip devFiles).take m).map (dictRow (k + 1)) ++
        (devCalib[m].1, (devFiles[m].2.take k).map
          (fun f => bundleEntry devCalib[m].2 f)) ::
        ((devCalib.zip devFiles).drop (m + 1)).map (dictRow k) := by
    unfold truncState
    rw [List.drop_eq_getElem_cons hmz, hzipm]
    rfl
  rw [hstate]
  have hfresh : devCalib[m].1 ∉
      (((devCalib.zip devFiles).take m).map (dictRow (k + 1))).map Prod.fst := by
    rw [List.map_map]
    show devCalib[m].1 ∉
      ((devCalib.zip devFiles).take m).map (fun pc => pc.1.1)
    rw [zip_take_take,
      zip_map_fst_eq Prod.fst _ _ (by simp [hlen]),
      List.map_take]
    intro hmem
    have hmlen : m < (devCalib.map Prod.fst).length := by simpa using hm
    refine nodup_not_mem_take hnd hmlen ?_
    simpa [List.getElem_map] using hmem
  rw [dictSetIn_at hfresh ts _]
  have hfreshTs : ts ∉
      ((devFiles[m].2.take k).map
        (fun f => bundleEntry devCalib[m].2 f)).map Prod.fst := by
    rw [List.map_map]
    show ts ∉ (devFiles[m].2.take k).map (fun f => (parseTs f).getD 0)
    rw [List.map_take]
    intro hmem
    have hklen : k < (devFiles[m].2.map (fun f => (parseTs f).getD 0)).length := by
      simpa using hkf
    have hts2 : (devFiles[m].2.map (fun f => (parseTs f).getD 0))[k] = ts := by
      rw [List.getElem_map,
        show devFiles[m].2[k] = devFiles[m].2.getD k "" from
          (List.getD_eq_getElem _ _ hkf).symm,
        hts]
      rfl
    rw [← hts2] at hmem
    exact nodup_not_mem_take hndts hklen hmem
  rw [dictSet_fresh _ hfreshTs]
  have hentry : ((devFiles[m].2.take k).map
      (fun f => bundleEntry devCalib[m].2 f)) ++
      [(ts, (devCalib[m].2, devFiles[m].2.getD k ""))] =
      (devFiles[m].2.take (k + 1)).map
        (fun f => bundleEntry devCalib[m].2 f) := by
    rw [List.take_succ, List.getElem?_eq_getElem hkf, List.map_append]
    congr 1
    simp only [Option.toList_some, List.map_cons, List.map_nil]
    unfold bundleEntry
    rw [show devFiles[m].2[k] = devFiles[m].2.getD k "" from
      (List.getD_eq_getElem _ _ hkf).symm, hts]
    rfl
  rw [hentry]
  unfold truncState
  conv_rhs => rw [List.take_succ, List.getElem?_eq_getElem hmz, hzipm,
    List.map_append]
  simp [dictRow, List.append_assoc]

theorem rowLoop_step
    (devCalib : List (String × String))
    (devColor devDepth : List (String × List String))
    (numData k : Nat)
    (hlc : devColor.length = devCalib.length)
    (hld : devDepth.length = devCalib.length)
    (hnd : (devCalib.map Prod.fst).Nodup)
    (hkc : ∀ p ∈ devColor, k < p.2.length)
    (hkd : ∀ p ∈ devDepth, k < p.2.length)
    (hkn : k < numData)
    (hpc : ∀ p ∈ devColor, ∀ f ∈ p.2, (parseTs f).isSome)
    (hpd : ∀ p ∈ devDepth, ∀ f ∈ p.2, (parseTs f).isSome)
    (hdc : ∀ p ∈ devColor, (p.2.map (fun f => (parseTs f).getD 0)).Nodup)
    (hdd : ∀ p ∈ devDepth, (p.2.map (fun f => (parseTs f).getD 0)).Nodup) :
    ∀ c m, m + c = devCalib.length →
      rowLoop devCalib.length
        (((devCalib.map Prod.fst).map (fun d => List.replicate numData d) ++
          ((devCalib.map Prod.snd).map (fun c2 => List.replicate numData c2) ++
            (devColor.map Prod.snd ++ devDepth.map Prod.snd))).map
          (fun l => l.getD k ""))
        (List.range' m c)
        (truncState devCalib devColor k m, truncState devCalib devDepth k m) =
      Except.ok (truncFull devCalib devColor (k + 1),
        truncFull devCalib devDepth (k + 1)) := by
  intro c
  induction c with
  | zero =>
    intro m hmn
    have hm : m = devCalib.length := by omega
    subst hm
    have hzc : (devCalib.zip devColor).length = devCalib.length := by
      rw [List.length_zip, hlc, Nat.min_self]
    have hzd : (devCalib.zip devDepth).length = devCalib.length := by
      rw [List.length_zip, hld, Nat.min_self]
    unfold truncState truncFull
    rw [List.take_of_length_le (le_of_eq hzc),
      List.take_of_length_le (le_of_eq hzd),
      List.drop_eq_nil_of_le (le_of_eq hzc),
      List.drop_eq_nil_of_le (le_of_eq hzd)]
    simp [rowLoop]
  | succ c ih =>
    intro m hmn
    have hm : m < devCalib.length := by omega
    have hmcol : m < devColor.length := by omega
    have hmdep : m < devDepth.length := by omega
    -- the four values the row holds at the offsets for device m
    have hblocks := lists_get_blocks
      ((devCalib.map Prod.fst).map (fun d => List.replicate numData d))
      ((devCalib.map Prod.snd).map (fun c2 => List.replicate numData c2))
      (devColor.map Prod.snd) (devDepth.map Prod.snd)
      devCalib.length m (by simp) (by simp) (by simp [hlc]) hm
    have hrow0 :
        (((devCalib.map Prod.fst).map (fun d => List.replicate numData d) ++
          ((devCalib.map Prod.snd).map (fun c2 => List.replicate numData c2) ++
            (devColor.map Prod.snd ++ devDepth.map Prod.snd))).map
          (fun l => l.getD k "")).get? (0 * devCalib.length + m) =
        some devCalib[m].1 := by
      rw [List.get?_map, hblocks.1, List.get?_map, List.get?_map,
        List.get?_eq_getElem?, List.getElem?_eq_getElem hm]
      simp [List.getElem?_replicate, hkn]
    have hrow1 :
        (((devCalib.map Prod.fst).map (fun d => List.replicate numData d) ++
          ((devCalib.map Prod.snd).map (fun c2 => List.replicate numData c2) ++
            (devColor.map Prod.snd ++ devDepth.map Prod.snd))).map
          (fun l => l.getD k "")).get? (1 * devCalib.length + m) =
        some devCalib[m].2 := by
      rw [List.get?_map, hblocks.2.1, List.get?_map, List.get?_map,
        List.get?_eq_getElem?, List.getElem?_eq_getElem hm]
      simp [List.getElem?_replicate, hkn]
    have hrow2 :
        (((devCalib.map Prod.fst).map (fun d => List.replicate numData d) ++
          ((devCalib.map Prod.snd).map (fun c2 => List.replicate numData c2) ++
            (devColor.map Prod.snd ++ devDepth.map Prod.snd))).map
          (fun l => l.getD k "")).get? (2 * devCalib.length + m) =
        some (devColor[m].2.getD k "") := by
      rw [List.get?_map, hblocks.2.2.1, List.get?_map,
        List.get?_eq_getElem?, List.getElem?_eq_getElem hmcol]
      rfl
    have hrow3 :
        (((devCalib.map Prod.fst).map (fun d => List.replicate numData d) ++
          ((devCalib.map Prod.snd).map (fun c2 => List.replicate numData c2) ++
            (devColor.map Prod.snd ++ devDepth.map Prod.snd))).map
          (fun l => l.getD k "")).get? (3 * devCalib.length + m) =
        some (devDepth[m].2.getD k "") := by
      rw [List.get?_map, hblocks.2.2.2, List.get?_map,
        List.get?_eq_getElem?, List.getElem?_eq_getElem hmdep]
      rfl
    -- parsed timestamps of the two files of device m
    have hcolmem : devColor[m] ∈ devColor := List.getElem_mem _
    have hdepmem : devDepth[m] ∈ devDepth := List.getElem_mem _
    have hkcol : k < devColor[m].2.length := hkc _ hcolmem
    have hkdep : k < devDepth[m].2.length := hkd _ hdepmem
    have hfc : devColor[m].2.getD k "" = devColor[m].2[k] :=
      List.getD_eq_getElem _ _ hkcol
    have hfd : devDepth[m].2.getD k "" = devDepth[m].2[k] :=
      List.getD_eq_getElem _ _ hkdep
    obtain ⟨tsc, htsc⟩ := Option.isSome_iff_exists.mp
      (hpc _ hcolmem _ (hfc ▸ List.getElem_mem hkcol))
    obtain ⟨tsd, htsd⟩ := Option.isSome_iff_exists.mp
      (hpd _ hdepmem _ (hfd ▸ List.getElem_mem hkdep))
    have hsetc := dictSetIn_truncState devCalib devColor k m tsc
      hlc hnd hm hmcol hkcol htsc (hdc _ hcolmem)
    have hsetd := dictSetIn_truncState devCalib devDepth k m tsd
      hld hnd hm hmdep hkdep htsd (hdd _ hdepmem)
    rw [List.range'_succ]
    simp only [rowLoop]
    rw [tupleGet_eq hrow0, except_bind_ok]
    rw [tupleGet_eq hrow1, except_bind_ok]
    rw [tupleGet_eq hrow2, except_bind_ok]
    rw [tupleGet_eq hrow3, except_bind_ok]
    simp only [htsc, htsd]
    rw [except_bind_ok, except_bind_ok]
    rw [hsetc, except_bind_ok, hsetd, except_bind_ok]
    exact ih (m + 1) (by omega)

theorem truncFull_zero
    (devCalib : List (String × String))
    (devFiles : List (String × List String))
    (hlen : devCalib.length = devFiles.length) :
    truncFull devCalib devFiles 0 = devCalib.map (fun p => (p.1, [])) := by
  unfold truncFull
  rw [show (dictRow 0 :
      (String × String) × (String × List String) →
        String × List (Nat × (String × String))) =
      (fun pc => (pc.1.1, [])) from funext (fun pc => by simp [dictRow])]
  exact zip_map_fst_eq (fun a => (a.1, [])) _ _ hlen

theorem rowsLoop_trunc
    (devCalib : List (String × String))
    (devColor devDepth : List (String × List String))
    (numData N : Nat)
    (hlc : devColor.length = devCalib.length)
    (hld : devDepth.length = devCalib.length)
    (hnd : (devCalib.map Prod.fst).Nodup)
    (hNc : ∀ p ∈ devColor, N ≤ p.2.length)
    (hNd : ∀ p ∈ devDepth, N ≤ p.2.length)
    (hNn : N ≤ numData)
    (hpc : ∀ p ∈ devColor, ∀ f ∈ p.2, (parseTs f).isSome)
    (hpd : ∀ p ∈ devDepth, ∀ f ∈ p.2, (parseTs f).isSome)
    (hdc : ∀ p ∈ devColor, (p.2.map (fun f => (parseTs f).getD 0)).Nodup)
    (hdd : ∀ p ∈ devDepth, (p.2.map (fun f => (parseTs f).getD 0)).Nodup) :
    ∀ k, k ≤ N →
      rowsLoop devCalib.length
        ((List.range k).map (fun j =>
          (((devCalib.map Prod.fst).map (fun d => List.replicate numData d) ++
            ((devCalib.map Prod.snd).map (fun c2 => List.replicate numData c2) ++
              (devColor.map Prod.snd ++ devDepth.map Prod.snd)))).map
            (fun l => l.getD j "")))
        (truncFull devCalib devColor 0, truncFull devCalib devDepth 0) =
      Except.ok (truncFull devCalib devColor k, truncFull devCalib devDepth k) := by
  intro k
  induction k with
  | zero => intro h0; rfl
  | succ k ih =>
    intro hk1
    rw [List.range_succ, List.map_append, rowsLoop_append,
      ih (by omega), except_bind_ok]
    have hstep := rowLoop_step devCalib devColor devDepth numData k
      hlc hld hnd
      (fun p hp => lt_of_lt_of_le (by omega) (hNc p hp))
      (fun p hp => lt_of_lt_of_le (by omega) (hNd p hp))
      (by omega) hpc hpd hdc hdd
      devCalib.length 0 (by omega)
    have hstep2 : rowLoop devCalib.length
        (((devCalib.map Prod.fst).map (fun d => List.replicate numData d) ++
          ((devCalib.map Prod.snd).map (fun c2 => List.replicate numData c2) ++
            (devColor.map Prod.snd ++ devDepth.map Prod.snd))).map
          (fun l => l.getD k ""))
        (List.range' 0 devCalib.length)
        (truncFull devCalib devColor k, truncFull devCalib devDepth k) =
        Except.ok (truncFull devCalib devColor (k + 1),
          truncFull devCalib devDepth (k + 1)) := hstep
    simp only [List.map_cons, List.map_nil, rowsLoop]
    rw [List.range_eq_range', hstep2]

/-- C9: when the per-device color and depth file lists have unequal
lengths, `get_filepaths_with_timestamps` silently truncates every
device's color and depth sequence to `N` entries, where `N`
(`truncLen`) is the minimum of the first device's color-list length
(`num_data`) and of every device's color-list and depth-list lengths:
`zip` stops at the shortest of the replicated device/calib lists and the
file lists, and no error is raised.  Hypotheses: the three scans share
the same distinct device keys (as directory listings do), every file
base name parses as a timestamp, and each device's timestamps are
distinct (the spec's strictly-increasing-sequence data model). -/
theorem claim9_zip_truncation
    (devColor devDepth : List (String × List String))
    (devCalib : List (String × String))
    (hk1 : devColor.map Prod.fst = devCalib.map Prod.fst)
    (hk2 : devDepth.map Prod.fst = devCalib.map Prod.fst)
    (hnd : (devCalib.map Prod.fst).Nodup)
    (hne : devCalib ≠ [])
    (hpc : ∀ p ∈ devColor, ∀ f ∈ p.2, (parseTs f).isSome)
    (hpd : ∀ p ∈ devDepth, ∀ f ∈ p.2, (parseTs f).isSome)
    (hdc : ∀ p ∈ devColor, (p.2.map (fun f => (parseTs f).getD 0)).Nodup)
    (hdd : ∀ p ∈ devDepth, (p.2.map (fun f => (parseTs f).getD 0)).Nodup) :
    buildDicts devColor devDepth devCalib = Except.ok
      { colorDict := truncFull devCalib devColor (truncLen devColor devDepth),
        depthDict := truncFull devCalib devDepth (truncLen devColor devDepth),
        numData := (devColor.head?.map (fun p => p.2.length)).getD 0,
        numDev := devCalib.length } := by
  have hlc : devColor.length = devCalib.length := by
    have := congrArg List.length hk1
    simpa using this
  have hld : devDepth.length = devCalib.length := by
    have := congrArg List.length hk2
    simpa using this
  have hcne : devColor ≠ [] := by
    intro h
    apply hne
    rw [h] at hlc
    exact List.eq_nil_of_length_eq_zero hlc.symm
  obtain ⟨c0, crest, rfl⟩ := List.exists_cons_of_ne_nil hcne
  -- every color list, every depth list, and the first color list are at
  -- least as long as the number of zip rows
  have hClists : ∀ p ∈ c0 :: crest,
      p.2 ∈ ((devCalib.map Prod.fst).map
          (fun d => List.replicate c0.2.length d) ++
        ((devCalib.map Prod.snd).map
            (fun c2 => List.replicate c0.2.length c2) ++
          ((c0 :: crest).map Prod.snd ++ devDepth.map Prod.snd))) := by
    intro p hp
    exact List.mem_append.mpr (Or.inr (List.mem_append.mpr (Or.inr
      (List.mem_append.mpr (Or.inl (List.mem_map.mpr ⟨p, hp, rfl⟩))))))
  have hDlists : ∀ p ∈ devDepth,
      p.2 ∈ ((devCalib.map Prod.fst).map
          (fun d => List.replicate c0.2.length d) ++
        ((devCalib.map Prod.snd).map
            (fun c2 => List.replicate c0.2.length c2) ++
          ((c0 :: crest).map Prod.snd ++ devDepth.map Prod.snd))) := by
    intro p hp
    exact List.mem_append.mpr (Or.inr (List.mem_append.mpr (Or.inr
      (List.mem_append.mpr (Or.inr (List.mem_map.mpr ⟨p, hp, rfl⟩))))))
  have hNc : ∀ p ∈ c0 :: crest,
      zipLen ((devCalib.map Prod.fst).map
          (fun d => List.replicate c0.2.length d) ++
        ((devCalib.map Prod.snd).map
            (fun c2 => List.replicate c0.2.length c2) ++
          ((c0 :: crest).map Prod.snd ++ devDepth.map Prod.snd))) ≤
        p.2.length := by
    intro p hp
    exact zipLen_le _ (List.mem_map.mpr ⟨p.2, hClists p hp, rfl⟩)
  have hNd : ∀ p ∈ devDepth,
      zipLen ((devCalib.map Prod.fst).map
          (fun d => List.replicate c0.2.length d) ++
        ((devCalib.map Prod.snd).map
            (fun c2 => List.replicate c0.2.length c2) ++
          ((c0 :: crest).map Prod.snd ++ devDepth.map Prod.snd))) ≤
        p.2.length := by
    intro p hp
    exact zipLen_le _ (List.mem_map.mpr ⟨p.2, hDlists p hp, rfl⟩)
  have hNn : zipLen ((devCalib.map Prod.fst).map
        (fun d => List.replicate c0.2.length d) ++
      ((devCalib.map Prod.snd).map
          (fun c2 => List.replicate c0.2.length c2) ++
        ((c0 :: crest).map Prod.snd ++ devDepth.map Prod.snd))) ≤
      c0.2.length :=
    hNc c0 (List.mem_cons_self _ _)
  -- the zip truncation length is exactly the length the claim computes
  have hNeq : zipLen ((devCalib.map Prod.fst).map
        (fun d => List.replicate c0.2.length d) ++
      ((devCalib.map Prod.snd).map
          (fun c2 => List.replicate c0.2.length c2) ++
        ((c0 :: crest).map Prod.snd ++ devDepth.map Prod.snd))) =
      truncLen (c0 :: crest) devDepth := by
    have hinit : ((((c0 :: crest) : List (String × List String)).head?.map
        (fun p => p.2.length)).getD 0) = c0.2.length := by
      simp
    apply le_antisymm
    · unfold truncLen
      rw [hinit]
      rcases foldr_min_cases
        ((c0 :: crest).map (fun p => p.2.length) ++
          devDepth.map (fun p => p.2.length)) c0.2.length with h | h
      · rw [h]
        exact hNn
      · rcases List.mem_append.mp h with h | h
        · obtain ⟨p, hp, hlen2⟩ := List.mem_map.mp h
          rw [← hlen2]
          exact hNc p hp
        · obtain ⟨p, hp, hlen2⟩ := List.mem_map.mp h
          rw [← hlen2]
          exact hNd p hp
    · have hmem := @zipLen_mem ((devCalib.map Prod.fst).map
          (fun d => List.replicate c0.2.length d) ++
        ((devCalib.map Prod.snd).map
            (fun c2 => List.replicate c0.2.length c2) ++
          ((c0 :: crest).map Prod.snd ++ devDepth.map Prod.snd)))
        (by
          intro h
          rw [List.append_eq_nil] at h
          have h2 := h.2
          rw [List.append_eq_nil] at h2
          have h3 := h2.2
          rw [List.append_eq_nil] at h3
          exact absurd h3.1 (by simp))
      obtain ⟨l, hl, hlen2⟩ := List.mem_map.mp hmem
      rcases List.mem_append.mp hl with h | h
      · obtain ⟨d, hd2, hrep⟩ := List.mem_map.mp h
        unfold truncLen
        rw [hinit, ← hlen2, ← hrep]
        simp only [List.length_replicate]
        exact foldr_min_le_init _ _
      · rcases List.mem_append.mp h with h | h
        · obtain ⟨d, hd2, hrep⟩ := List.mem_map.mp h
          unfold truncLen
          rw [hinit, ← hlen2, ← hrep]
          simp only [List.length_replicate]
          exact foldr_min_le_init _ _
        · rcases List.mem_append.mp h with h | h
          · obtain ⟨p, hp, hsnd⟩ := List.mem_map.mp h
            unfold truncLen
            rw [← hlen2, ← hsnd]
            exact foldr_min_le_mem _ _ _
              (List.mem_append.mpr (Or.inl (List.mem_map.mpr ⟨p, hp, rfl⟩)))
          · obtain ⟨p, hp, hsnd⟩ := List.mem_map.mp h
            unfold truncLen
            rw [← hlen2, ← hsnd]
            exact foldr_min_le_mem _ _ _
              (List.mem_append.mpr (Or.inr (List.mem_map.mpr ⟨p, hp, rfl⟩)))
  -- run the loop
  have hloop := rowsLoop_trunc devCalib (c0 :: crest) devDepth c0.2.length
    (zipLen ((devCalib.map Prod.fst).map
        (fun d => List.replicate c0.2.length d) ++
      ((devCalib.map Prod.snd).map
          (fun c2 => List.replicate c0.2.length c2) ++
        ((c0 :: crest).map Prod.snd ++ devDepth.map Prod.snd))))
    hlc hld hnd hNc hNd hNn hpc hpd hdc hdd
    (zipLen ((devCalib.map Prod.fst).map
        (fun d => List.replicate c0.2.length d) ++
      ((devCalib.map Prod.snd).map
          (fun c2 => List.replicate c0.2.length c2) ++
        ((c0 :: crest).map Prod.snd ++ devDepth.map Prod.snd))))
    (le_refl _)
  unfold buildDicts
  simp only [List.head?_cons, except_bind_ok, zipRows]
  nth_rewrite 1 [show devCalib.map
    (fun p => (p.1, ([] : List (Nat × (String × String))))) =
    truncFull devCalib (c0 :: crest) 0 from
    (truncFull_zero devCalib (c0 :: crest) hlc.symm).symm]
  nth_rewrite 1 [show devCalib.map
    (fun p => (p.1, ([] : List (Nat × (String × String))))) =
    truncFull devCalib devDepth 0 from
    (truncFull_zero devCalib devDepth hld.symm).symm]
  rw [hloop, except_bind_ok, hNeq]
  simp

/-- Witness for C9 at a concrete input: one device with two color files
and one depth file; `truncLen = 1`, so both sequences truncate to the
single entry `(10, (c.json, 10.bin))` and the second color file is
silently dropped. -/
theorem claim9_zip_truncation_witness :
    buildDicts [("d0", ["10.bin", "9.bin"])] [("d0", ["10.bin"])]
      [("d0", "c.json")] = Except.ok
      { colorDict := truncFull [("d0", "c.json")]
          [("d0", ["10.bin", "9.bin"])]
          (truncLen [("d0", ["10.bin", "9.bin"])] [("d0", ["10.bin"])]),
        depthDict := truncFull [("d0", "c.json")] [("d0", ["10.bin"])]
          (truncLen [("d0", ["10.bin", "9.bin"])] [("d0", ["10.bin"])]),
        numData := (([("d0", ["10.bin", "9.bin"])] :
          List (String × List String)).head?.map (fun p => p.2.length)).getD 0,
        numDev := 1 } :=
  claim9_zip_truncation [("d0", ["10.bin", "9.bin"])] [("d0", ["10.bin"])]
    [("d0", "c.json")] (by decide) (by decide) (by decide) (by decide)
    (by decide) (by decide) (by decide) (by decide)


end RsView
